import Mathlib

/-!
Shallow embedding of the MIGraphX-to-TOSA lowering patterns from
`mlir/lib/Conversion/MIGraphXToTosa/MIGraphXToTosa.cpp`.

Each rewrite rule is modelled as a pure function on tensor types.  A rule
returns the list of operations it creates, each recorded as an `EmittedOp`
(kind, attributes, operand types at creation time, and the result type the
rule stamped), together with the replacement value type.  A rule that can
report failure returns an `Outcome`; undefined behavior in the C++ source
(an out-of-bounds `ArrayRef`/`SmallVector` access, a wrapped unsigned loop
bound, or a failed `assert`) is modelled as `Outcome.crash` or as `none`.

The shape/type inference oracle (`InferShapedTypeOpInterface` of the TOSA
dialect) is not part of this repository; `inferTosa` models it from the
specification of the target vocabulary.
-/

set_option autoImplicit false

/-- A tensor shape: the ordered list of extents (`int64_t` in the source). -/
abbrev Shape := List Int

/-- Element types that occur in the lowering paths. -/
inductive ElemTy where
  | f32
  | f16
  | i8
  | i32
  | i64
  | other (n : Nat)
deriving DecidableEq

/-- A ranked tensor type: a static shape plus an element type. -/
structure TensorTy where
  shape : Shape
  elemTy : ElemTy
deriving DecidableEq

/-- The kinds of operations the rewrite rules create. -/
inductive TosaKind where
  | transpose
  | conv2d
  | reshape
  | matmul
  | reduceMax
  | reduceSum
  | sub
  | exp
  | reciprocal
  | mul
  | add
  | cast
  | const
  | arithConst
deriving DecidableEq

/-- The attributes of a created operation that are relevant to shape/type
inference.  `constAttr` records the result tensor type of a constant and its
(integer-valued) payload. -/
inductive TosaAttrs where
  | noAttrs
  | axisAttr (a : Int)
  | permAttr (p : List Nat)
  | shapeAttr (s : Shape)
  | convAttr (pad stride dilation : List Int)
  | shiftAttr (n : Int)
  | castAttr (dst : ElemTy)
  | constAttr (ty : TensorTy) (vals : List Int)
deriving DecidableEq

/-- A record of one operation created by a rewrite rule: its kind, its
attributes, the operand types at the moment of creation, and the result type
the rule declared on it. -/
structure EmittedOp where
  kind : TosaKind
  attrs : TosaAttrs
  inTys : List TensorTy
  declaredTy : TensorTy
deriving DecidableEq

/-- The reportable diagnostics the rules can emit. -/
inductive RewriteErr where
  | matmulCannotBroadcast
  | singleAxisOnly
deriving DecidableEq

/-- The result of running a rewrite rule: success, a reportable failure
(`LogicalResult` failure with a diagnostic), or a crash (undefined behavior
in the C++: an out-of-bounds shape access or a failed assertion). -/
inductive Outcome (α : Type) where
  | success (a : α)
  | failure (e : RewriteErr)
  | crash
deriving DecidableEq

/-- Product of a list of extents, as computed by the batch-size loops. -/
def listProd (l : List Int) : Int :=
  l.foldl (fun a b => a * b) 1

/-- Broadcast of one dimension pair: equal extents match, an extent of 1
adopts the sibling extent, anything else is a mismatch. -/
def broadcastDim (a b : Int) : Option Int :=
  if a = b then some a
  else if a = 1 then some b
  else if b = 1 then some a
  else none

/-- Dimension-wise broadcast of two equal-rank shapes. -/
def broadcastDims : Shape → Shape → Option Shape
  | [], [] => some []
  | x :: xs, y :: ys =>
    match broadcastDim x y, broadcastDims xs ys with
    | some d, some rest => some (d :: rest)
    | _, _ => none
  | _, _ => none

/-- Pad a shape with leading unit extents up to rank `n`. -/
def padToRank (s : Shape) (n : Nat) : Shape :=
  List.replicate (n - s.length) 1 ++ s

/-- Right-aligned implicit broadcasting of two shapes. -/
def broadcastShapes (a b : Shape) : Option Shape :=
  let n := max a.length b.length
  broadcastDims (padToRank a n) (padToRank b n)

/-- Apply a permutation to a shape: entry `i` of the result is extent
`p[i]` of the input.  Fails unless `p` has exactly the input rank and every
entry is in bounds. -/
def applyPerm (p : List Nat) (s : Shape) : Option Shape :=
  if p.length = s.length ∧ ∀ i ∈ p, i < s.length then
    some (p.map (fun i => s.getD i 0))
  else none

/-- One spatial output extent of a convolution (truncating division as in
C++ `int64_t` arithmetic). -/
def convOutExtent (inSz kSz padA padB stride dilation : Int) : Int :=
  Int.tdiv (inSz - 1 + padA + padB - (kSz - 1) * dilation) stride + 1

/-- Output shape of a TOSA `conv2d`: input NHWC, filter `[O, KH, KW, C]`,
result NHWC. -/
def inferConv2dShape (inS filtS pad stride dilation : Shape) : Option Shape :=
  match inS, filtS, pad, stride, dilation with
  | [n, ih, iw, _c], [o, kh, kw, _c2], [pt, pb, pl, pr], [sh, sw], [dh, dw] =>
    some [n, convOutExtent ih kh pt pb sh dh, convOutExtent iw kw pl pr sw dw, o]
  | _, _, _, _, _ => none

/-- Inferred type of a TOSA `matmul`: both operands rank 3 with equal batch
extents; result `[batch, rows of A, cols of B]`. -/
def inferMatMul (a b : TensorTy) : Option TensorTy :=
  match a.shape, b.shape with
  | [n, h, _c], [n2, _c2, w] => if n = n2 then some ⟨[n, h, w], a.elemTy⟩ else none
  | _, _ => none

/-- Shape after reducing one axis to extent 1. -/
def reduceShape (s : Shape) (axis : Int) : Option Shape :=
  if 0 ≤ axis ∧ axis.toNat < s.length then some (s.set axis.toNat 1) else none

/-- Modelled from the spec: the shape/type inference oracle
`infer(kind, attributes, input shapes/types) -> output shape/type | error`
for the target (TOSA) vocabulary.  The TOSA dialect implementation
(`InferShapedTypeOpInterface::inferReturnTypeComponents`) is not part of
this repository; the rules below follow the specification of the target
vocabulary (section 6) and its shape algebra (section 4.1). -/
def inferTosa (k : TosaKind) (attrs : TosaAttrs) (ins : List TensorTy) : Option TensorTy :=
  match k, attrs, ins with
  | TosaKind.transpose, TosaAttrs.permAttr p, [t, _permValue] =>
    (applyPerm p t.shape).map (fun s => ⟨s, t.elemTy⟩)
  | TosaKind.conv2d, TosaAttrs.convAttr pad stride dilation, [t, f, _bias] =>
    (inferConv2dShape t.shape f.shape pad stride dilation).map (fun s => ⟨s, t.elemTy⟩)
  | TosaKind.reshape, TosaAttrs.shapeAttr s, [t] => some ⟨s, t.elemTy⟩
  | TosaKind.matmul, TosaAttrs.noAttrs, [a, b] => inferMatMul a b
  | TosaKind.reduceMax, TosaAttrs.axisAttr ax, [t] =>
    (reduceShape t.shape ax).map (fun s => ⟨s, t.elemTy⟩)
  | TosaKind.reduceSum, TosaAttrs.axisAttr ax, [t] =>
    (reduceShape t.shape ax).map (fun s => ⟨s, t.elemTy⟩)
  | TosaKind.sub, TosaAttrs.noAttrs, [a, b] =>
    (broadcastShapes a.shape b.shape).map (fun s => ⟨s, a.elemTy⟩)
  | TosaKind.add, TosaAttrs.noAttrs, [a, b] =>
    (broadcastShapes a.shape b.shape).map (fun s => ⟨s, a.elemTy⟩)
  | TosaKind.mul, TosaAttrs.shiftAttr _, [a, b] =>
    (broadcastShapes a.shape b.shape).map (fun s => ⟨s, a.elemTy⟩)
  | TosaKind.exp, TosaAttrs.noAttrs, [t] => some t
  | TosaKind.reciprocal, TosaAttrs.noAttrs, [t] => some t
  | TosaKind.cast, TosaAttrs.castAttr e, [t] => some ⟨t.shape, e⟩
  | TosaKind.const, TosaAttrs.constAttr ty _, [] => some ty
  | TosaKind.arithConst, TosaAttrs.constAttr ty _, [] => some ty
  | _, _, _ => none

/-- An operation's declared result type agrees with what the inference
oracle computes from its kind, attributes and operand types. -/
def wellInferred (e : EmittedOp) : Prop :=
  inferTosa e.kind e.attrs e.inTys = some e.declaredTy

instance (e : EmittedOp) : Decidable (wellInferred e) := by
  unfold wellInferred; infer_instance

/-- Every operation in the list satisfies `wellInferred`. -/
def allWellInferred (l : List EmittedOp) : Prop :=
  ∀ e ∈ l, wellInferred e

/-- The `createOpAndInfer` helper (MIGraphXToTosa.cpp lines 42-58): create
the operation with unranked result type, run the inference oracle (a failed
inference is a failed `assert`, modelled as `none`), and stamp the result
with the inferred dimensions and the element type passed by the caller. -/
def createOpAndInfer (k : TosaKind) (attrs : TosaAttrs) (elemTy : ElemTy)
    (ins : List TensorTy) : Option (EmittedOp × TensorTy) :=
  match inferTosa k attrs ins with
  | some t => some (EmittedOp.mk k attrs ins ⟨t.shape, elemTy⟩, ⟨t.shape, elemTy⟩)
  | none => none

/-- The `createCastOp` helper (lines 60-67): the result type clones the
input shape with the requested element type. -/
def createCastOp (resElementType : ElemTy) (input : TensorTy) : EmittedOp × TensorTy :=
  (EmittedOp.mk TosaKind.cast (TosaAttrs.castAttr resElementType) [input]
      ⟨input.shape, resElementType⟩,
   ⟨input.shape, resElementType⟩)

/-! ### Convolution lowering (`ConvConverter`, lines 69-182) -/

/-- The shape computed by `getRank4TransposeOp` (lines 81-99):
`{inputShape[permutation[0]], ..., inputShape[permutation[3]]}`.  The C++
indexes the shape without bounds checks; an out-of-range entry is undefined
behavior, modelled as `none`. -/
def getRank4TransposeShape (perm : List Nat) (s : Shape) : Option Shape :=
  match perm with
  | [p0, p1, p2, p3] =>
    match s.get? p0, s.get? p1, s.get? p2, s.get? p3 with
    | some x0, some x1, some x2, some x3 => some [x0, x1, x2, x3]
    | _, _, _, _ => none
  | _ => none

/-- Modelled from the spec: the output shape of the source (MIGraphX)
convolution in channel-first (NCHW) layout, with filter `[O, C, KH, KW]`.
The MIGraphX operation definitions are not part of this repository; this
follows section 4.2 of the specification, using the same per-axis extent
formula as the target convolution. -/
def migraphxConvOutShape (inS filtS pad stride dilation : Shape) : Option Shape :=
  match inS, filtS, pad, stride, dilation with
  | [n, _c, ih, iw], [o, _c2, kh, kw], [pt, pb, pl, pr], [sh, sw], [dh, dw] =>
    some [n, o, convOutExtent ih kh pt pb sh dh, convOutExtent iw kw pl pr sw dw]
  | _, _, _, _, _ => none

/-- The `ConvConverter::matchAndRewrite` rule (lines 101-181): transpose
input and filter to channel-last, synthesize a zero bias, emit the target
convolution with repacked attributes, and transpose the result back.  The
operand types are `inTy` (input), `filterTy` (filter); `outTy` is the
matched operation's declared result type; `pad`, `stride`, `dilation` are
its attribute lists. -/
def convRewrite (inTy filterTy outTy : TensorTy) (pad stride dilation : List Int) :
    Option (List EmittedOp × TensorTy) :=
  match getRank4TransposeShape [0, 2, 3, 1] inTy.shape,
        getRank4TransposeShape [0, 2, 3, 1] filterTy.shape with
  | some inShapeT, some filtShapeT =>
    if outTy.shape.length < 4 ∨ pad.length < 4 ∨ stride.length < 2 ∨ dilation.length < 2 then
      none
    else
      let newShape : Shape :=
        [outTy.shape.getD 0 0, outTy.shape.getD 2 0, outTy.shape.getD 3 0, outTy.shape.getD 1 0]
      let permTy : TensorTy := ⟨[4], ElemTy.i64⟩
      let tIn : TensorTy := ⟨inShapeT, inTy.elemTy⟩
      let tFilt : TensorTy := ⟨filtShapeT, filterTy.elemTy⟩
      let biasTy : TensorTy := ⟨[filtShapeT.getD 0 0], outTy.elemTy⟩
      let convTy : TensorTy := ⟨newShape, outTy.elemTy⟩
      match getRank4TransposeShape [0, 3, 1, 2] newShape with
      | some backShape =>
        let outOpTy : TensorTy := ⟨backShape, outTy.elemTy⟩
        some
          ([EmittedOp.mk TosaKind.arithConst (TosaAttrs.constAttr permTy [0, 2, 3, 1]) [] permTy,
            EmittedOp.mk TosaKind.transpose (TosaAttrs.permAttr [0, 2, 3, 1]) [inTy, permTy] tIn,
            EmittedOp.mk TosaKind.arithConst (TosaAttrs.constAttr permTy [0, 2, 3, 1]) [] permTy,
            EmittedOp.mk TosaKind.transpose (TosaAttrs.permAttr [0, 2, 3, 1]) [filterTy, permTy] tFilt,
            EmittedOp.mk TosaKind.arithConst (TosaAttrs.constAttr biasTy [0]) [] biasTy,
            EmittedOp.mk TosaKind.conv2d
              (TosaAttrs.convAttr [pad.getD 0 0, pad.getD 1 0, pad.getD 2 0, pad.getD 3 0]
                [stride.getD 0 0, stride.getD 1 0] [dilation.getD 0 0, dilation.getD 1 0])
              [tIn, tFilt, biasTy] convTy,
            EmittedOp.mk TosaKind.arithConst (TosaAttrs.constAttr permTy [0, 3, 1, 2]) [] permTy,
            EmittedOp.mk TosaKind.transpose (TosaAttrs.permAttr [0, 3, 1, 2]) [convTy, permTy] outOpTy],
           outOpTy)
      | none => none
  | _, _ => none

/-- Modelled from the spec: a valid source convolution.  The matched
operation's declared output type must be what the source-level shape
function computes (NCHW layout) with the same element type as the input. -/
def convValid (inTy filterTy outTy : TensorTy) (pad stride dilation : List Int) : Prop :=
  outTy.elemTy = inTy.elemTy ∧
  migraphxConvOutShape inTy.shape filterTy.shape pad stride dilation = some outTy.shape ∧
  pad.length = 4 ∧ stride.length = 2 ∧ dilation.length = 2

/-! ### Broadcast and multi-broadcast lowering (lines 30-40, 184-302) -/

/-- An operand value as seen from a consumer of the matched broadcast:
the broadcast's own result, the replacement value installed by the rewrite
(the reshaped input, or the original input when no reshape is needed), or
some unrelated value. -/
inductive OpndV where
  | bres
  | newOp
  | other (id : Nat)
deriving DecidableEq

/-- A consumer of the broadcast's result: its operand list and its own
declared result type. -/
structure Consumer where
  opnds : List OpndV
  resTy : TensorTy
deriving DecidableEq

/-- Replace the first occurrence of the broadcast result in an operand list
(the `for (auto &operand ...) { ... break; }` loop). -/
def replaceFirstBres (l : List OpndV) (v : OpndV) : List OpndV :=
  match l with
  | [] => []
  | x :: xs => if x = OpndV.bres then v :: xs else x :: replaceFirstBres xs v

/-- The `isBroadcastable` helper (lines 30-40).  It returns whether the
consumer is a two-operand operation, and it mutates the consumer in place:
if the broadcast result is not already the second operand, it overwrites
operand 0 with operand 1 and operand 1 with the broadcast result. -/
def isBroadcastable (c : Consumer) : Bool × Consumer :=
  if c.opnds.length ≠ 2 then (false, c)
  else if c.opnds.getD 1 (OpndV.other 0) ≠ OpndV.bres then
    (true, Consumer.mk [c.opnds.getD 1 (OpndV.other 0), OpndV.bres] c.resTy)
  else (true, c)

/-- The consumer loop of `BroadcastConverter` (lines 220-234): check each
consumer with `isBroadcastable` (which may swap its operands) and rewire its
first matching operand to the replacement value; stop with failure at the
first non-qualifying consumer, keeping every mutation made so far. -/
def rewireAll : List Consumer → Bool × List Consumer
  | [] => (true, [])
  | c :: rest =>
    match isBroadcastable c with
    | (true, c1) =>
      let rewired := Consumer.mk (replaceFirstBres c1.opnds OpndV.newOp) c1.resTy
      let r := rewireAll rest
      (r.1, rewired :: r.2)
    | (false, c1) => (false, c1 :: rest)

/-- The aligned shape built by `BroadcastConverter` (lines 206-212): a list
of `outRank` ones whose entry at `axis` is the input's first extent.  A
negative or out-of-range axis, or an empty input shape, is an out-of-bounds
access, modelled as `none`. -/
def broadcastAlignShape (inShape : Shape) (outRank : Nat) (axis : Int) : Option Shape :=
  if 0 ≤ axis ∧ axis.toNat < outRank then
    match inShape.head? with
    | some e => some ((List.replicate outRank (1 : Int)).set axis.toNat e)
    | none => none
  else none

/-- The final state of a broadcast rewrite: the `LogicalResult` (`ok`), the
operations created, the consumers with whatever operand mutations were
committed, and whether the matched operation was erased. -/
structure BroadcastOutput where
  ok : Bool
  emitted : List EmittedOp
  consumers : List Consumer
  erased : Bool
deriving DecidableEq

/-- The `BroadcastConverter::matchAndRewrite` rule (lines 189-238).  When
the output rank differs from the input rank a reshape to the aligned shape
is created first; then every consumer is checked and rewired in turn.
`none` models the out-of-bounds crash inside the shape alignment. -/
def broadcastRewrite (inTy outTy : TensorTy) (axis : Int) (consumers : List Consumer) :
    Option BroadcastOutput :=
  let outRank := outTy.shape.length
  if outRank ≠ inTy.shape.length then
    match broadcastAlignShape inTy.shape outRank axis with
    | some newShape =>
      let r := rewireAll consumers
      some ⟨r.1,
            [EmittedOp.mk TosaKind.reshape (TosaAttrs.shapeAttr newShape) [inTy]
               ⟨newShape, outTy.elemTy⟩],
            r.2, r.1⟩
    | none => none
  else
    let r := rewireAll consumers
    some ⟨r.1, [], r.2, r.1⟩

/-- The reshape target shape of `MultiBroadcastConverter` (lines 270-279):
copy the leading `outRank - inRank` extents from the INPUT shape, then fill
the remaining `inRank` entries with 1.  When `outRank < inRank` the unsigned
difference wraps around and the loop reads far out of bounds; when
`outRank - inRank > inRank` the copy loop reads past the input shape.  Both
are modelled as `none`. -/
def multiBroadcastShape (inShape : Shape) (outRank : Nat) : Option Shape :=
  let inRank := inShape.length
  if outRank < inRank then none
  else if inRank < outRank - inRank then none
  else some (inShape.take (outRank - inRank) ++ List.replicate inRank (1 : Int))

/-- The consumer loop of `MultiBroadcastConverter` (lines 255-297): for each
qualifying binary consumer whose result rank differs from the input rank,
create a consumer-specific reshape and rewire that consumer; fail at the
first non-qualifying consumer, keeping earlier mutations. -/
def multiRewireAll (inTy : TensorTy) : List Consumer → Option (Bool × List Consumer × List EmittedOp)
  | [] => some (true, [], [])
  | c :: rest =>
    match isBroadcastable c with
    | (true, c1) =>
      let outRank := c1.resTy.shape.length
      if outRank ≠ inTy.shape.length then
        match multiBroadcastShape inTy.shape outRank with
        | some newShape =>
          let rop := EmittedOp.mk TosaKind.reshape (TosaAttrs.shapeAttr newShape) [inTy]
            ⟨newShape, c1.resTy.elemTy⟩
          let rewired := Consumer.mk (replaceFirstBres c1.opnds OpndV.newOp) c1.resTy
          match multiRewireAll inTy rest with
          | some (ok, rest2, ops2) => some (ok, rewired :: rest2, rop :: ops2)
          | none => none
        | none => none
      else
        let rewired := Consumer.mk (replaceFirstBres c1.opnds OpndV.newOp) c1.resTy
        match multiRewireAll inTy rest with
        | some (ok, rest2, ops2) => some (ok, rewired :: rest2, ops2)
        | none => none
    | (false, c1) => some (false, c1 :: rest, [])

/-- The `MultiBroadcastConverter::matchAndRewrite` rule (lines 246-301). -/
def multiBroadcastRewrite (inTy : TensorTy) (consumers : List Consumer) :
    Option BroadcastOutput :=
  match multiRewireAll inTy consumers with
  | some (ok, cs, ops) => some ⟨ok, ops, cs, ok⟩
  | none => none

/-! ### Batched dot lowering (`DotConverter`, lines 304-396) -/

/-- The row/column extent reads of the dot flattening path (lines 345-350):
each operand's rows and cols are read at positions `outRank - 2` and
`outRank - 1` of that operand's own shape, where `outRank` is the rank of
the dot's output. -/
def dotOperandRowCol (dims : Shape) (outRank : Nat) : Option (Int × Int) :=
  match dims.get? (outRank - 2), dims.get? (outRank - 1) with
  | some r, some c => some (r, c)
  | _, _ => none

/-- Emit the flattening path of the dot lowering: reshape both operands to
rank 3, emit the matmul on the reshaped operands, and reshape the result
back to the original output shape. -/
def dotEmitFlattened (aTy bTy outTy : TensorTy) (elementTy : ElemTy)
    (newDimsA newDimsB newDimsOut : Shape) : Outcome (List EmittedOp × TensorTy) :=
  let tA : TensorTy := ⟨newDimsA, elementTy⟩
  let tB : TensorTy := ⟨newDimsB, elementTy⟩
  let tOut : TensorTy := ⟨newDimsOut, elementTy⟩
  Outcome.success
    ([EmittedOp.mk TosaKind.reshape (TosaAttrs.shapeAttr newDimsA) [aTy] tA,
      EmittedOp.mk TosaKind.reshape (TosaAttrs.shapeAttr newDimsB) [bTy] tB,
      EmittedOp.mk TosaKind.matmul TosaAttrs.noAttrs [tA, tB] tOut,
      EmittedOp.mk TosaKind.reshape (TosaAttrs.shapeAttr outTy.shape) [tOut] outTy],
     outTy)

/-- The `DotConverter::matchAndRewrite` rule (lines 308-395).  In the
special (flattening) case the batch sizes are the products of all extents
except the last two; the rows/cols of each operand are read at positions
`outRank - 2` and `outRank - 1` of that operand's shape (see
`dotOperandRowCol`); a batch mismatch is supported only when the B batch
size is 1, folding the A batch into the row dimension; any other mismatch
is the reportable `matmulCannotBroadcast` failure.  Loop bounds `rank - 2`
are `size_t`, so a rank below 2 wraps around: modelled as `crash`. -/
def dotRewrite (aTy bTy outTy : TensorTy) : Outcome (List EmittedOp × TensorTy) :=
  let elementTy := aTy.elemTy
  let orgOutDims := outTy.shape
  let outRank := orgOutDims.length
  let orgDimsA := aTy.shape
  let orgDimsB := bTy.shape
  let rankA := orgDimsA.length
  let rankB := orgDimsB.length
  if outRank ≠ 3 ∨ rankA ≠ rankB ∨ (outRank = 3 ∧ orgDimsA ≠ orgDimsB) then
    if outRank < 2 ∨ rankA < 2 ∨ rankB < 2 then Outcome.crash
    else if (dotOperandRowCol orgDimsA outRank).isSome ∧
            (dotOperandRowCol orgDimsB outRank).isSome then
      let a1 := orgDimsA.getD (outRank - 2) 0
      let a2 := orgDimsA.getD (outRank - 1) 0
      let b1 := orgDimsB.getD (outRank - 2) 0
      let b2 := orgDimsB.getD (outRank - 1) 0
      let batchSizeC := listProd (orgOutDims.take (outRank - 2))
      let batchSizeA := listProd (orgDimsA.take (rankA - 2))
      let batchSizeB := listProd (orgDimsB.take (rankB - 2))
      let c1 := orgOutDims.getD (outRank - 2) 0
      let c2 := orgOutDims.getD (outRank - 1) 0
      if batchSizeA ≠ batchSizeB then
        if batchSizeB = 1 then
          dotEmitFlattened aTy bTy outTy elementTy
            [1, a1 * batchSizeA, a2] [batchSizeB, b1, b2] [1, c1 * batchSizeC, c2]
        else Outcome.failure RewriteErr.matmulCannotBroadcast
      else
        dotEmitFlattened aTy bTy outTy elementTy
          [batchSizeA, a1, a2] [batchSizeB, b1, b2] [batchSizeC, c1, c2]
    else Outcome.crash
  else
    Outcome.success
      ([EmittedOp.mk TosaKind.matmul TosaAttrs.noAttrs [aTy, bTy] ⟨orgOutDims, elementTy⟩],
       ⟨orgOutDims, elementTy⟩)

/-- Modelled from the spec: a valid source dot operation, restricted to the
configurations the code supports (the source comment at line 330 assumes A,
B and the output have the same rank; the output carries the A operand's
batch extents, its rows come from A and its cols from B; all element types
agree). -/
def dotValid (aTy bTy outTy : TensorTy) : Prop :=
  bTy.elemTy = aTy.elemTy ∧
  outTy.elemTy = aTy.elemTy ∧
  aTy.shape.length = outTy.shape.length ∧
  bTy.shape.length = outTy.shape.length ∧
  2 ≤ outTy.shape.length ∧
  outTy.shape.take (outTy.shape.length - 2) = aTy.shape.take (outTy.shape.length - 2) ∧
  outTy.shape.get? (outTy.shape.length - 2) = aTy.shape.get? (outTy.shape.length - 2) ∧
  outTy.shape.get? (outTy.shape.length - 1) = bTy.shape.get? (outTy.shape.length - 1)

/-! ### Softmax decomposition (`SoftmaxConverter`, lines 398-428) -/

/-- The `SoftmaxConverter::matchAndRewrite` rule: reduce-max, subtract,
exponential, reduce-sum, reciprocal, multiply, all built through
`createOpAndInfer` with the input's element type. -/
def softmaxRewrite (inTy : TensorTy) (axis : Int) : Option (List EmittedOp × TensorTy) :=
  let elementType := inTy.elemTy
  match createOpAndInfer TosaKind.reduceMax (TosaAttrs.axisAttr axis) elementType [inTy] with
  | some (maxOp, tMax) =>
    match createOpAndInfer TosaKind.sub TosaAttrs.noAttrs elementType [inTy, tMax] with
    | some (subOp, tSub) =>
      match createOpAndInfer TosaKind.exp TosaAttrs.noAttrs elementType [tSub] with
      | some (expOp, tExp) =>
        match createOpAndInfer TosaKind.reduceSum (TosaAttrs.axisAttr axis) elementType [tExp] with
        | some (sumOp, tSum) =>
          match createOpAndInfer TosaKind.reciprocal TosaAttrs.noAttrs elementType [tSum] with
          | some (recOp, tRec) =>
            match createOpAndInfer TosaKind.mul (TosaAttrs.shiftAttr 0) elementType [tExp, tRec] with
            | some (mulOp, tMul) =>
              some ([maxOp, subOp, expOp, sumOp, recOp, mulOp], tMul)
            | none => none
          | none => none
        | none => none
      | none => none
    | none => none
  | none => none

/-! ### Reshape lowering (`ReshapeConverter`, lines 430-453) -/

/-- The `ReshapeConverter::matchAndRewrite` rule: one TOSA reshape whose
attribute is the `dims` attribute of the matched operation and whose result
type is the matched operation's declared output type. -/
def reshapeRewrite (inTy outTy : TensorTy) (dims : List Int) : List EmittedOp × TensorTy :=
  ([EmittedOp.mk TosaKind.reshape (TosaAttrs.shapeAttr dims) [inTy] outTy], outTy)

/-! ### Reduce-mean decomposition (`ReduceMeanConverter`, lines 455-502) -/

/-- The `ReduceMeanConverter::matchAndRewrite` rule: exactly one reduction
axis is required (otherwise the reportable `singleAxisOnly` failure, with no
operation created); on success, a rank-1 constant holding the element count
of the reduced axis, its reciprocal, a multiply of the input by the
reciprocal, and a reduce-sum along the axis. -/
def reduceMeanRewrite (inTy : TensorTy) (axes : List Int) : Outcome (List EmittedOp × TensorTy) :=
  if axes.length ≠ 1 then Outcome.failure RewriteErr.singleAxisOnly
  else
    let axis := axes.getD 0 0
    let elementType := inTy.elemTy
    if 0 ≤ axis ∧ axis.toNat < inTy.shape.length then
      let n := inTy.shape.getD axis.toNat 0
      let constTy : TensorTy := ⟨[1], elementType⟩
      let constOp := EmittedOp.mk TosaKind.const (TosaAttrs.constAttr constTy [n]) [] constTy
      match createOpAndInfer TosaKind.reciprocal TosaAttrs.noAttrs elementType [constTy] with
      | some (recOp, tRec) =>
        match createOpAndInfer TosaKind.mul (TosaAttrs.shiftAttr 0) elementType [inTy, tRec] with
        | some (mulOp, tMul) =>
          match createOpAndInfer TosaKind.reduceSum (TosaAttrs.axisAttr axis) elementType [tMul] with
          | some (sumOp, tSum) => Outcome.success ([constOp, recOp, mulOp, sumOp], tSum)
          | none => Outcome.crash
        | none => Outcome.crash
      | none => Outcome.crash
    else Outcome.crash

/-! ### Quantize-linear lowering (`QuantizeLinearConverter`, lines 504-535) -/

/-- The `QuantizeLinearConverter::matchAndRewrite` rule: an optional bias
add in the source element type, an upcast to f32, a multiply by the scale
operand in f32, and a downcast to i8 whose result replaces the matched
operation's output. -/
def quantizeLinearRewrite (inTy scaleTy : TensorTy) (biasTy : Option TensorTy) :
    Option (List EmittedOp × TensorTy) :=
  let elementType := inTy.elemTy
  match biasTy with
  | some b =>
    match createOpAndInfer TosaKind.add TosaAttrs.noAttrs elementType [inTy, b] with
    | some (addOp, shifted) =>
      let up := createCastOp ElemTy.f32 shifted
      match createOpAndInfer TosaKind.mul (TosaAttrs.shiftAttr 0) ElemTy.f32 [up.2, scaleTy] with
      | some (mulOp, scaled) =>
        let down := createCastOp ElemTy.i8 scaled
        some ([addOp, up.1, mulOp, down.1], down.2)
      | none => none
    | none => none
  | none =>
    let up := createCastOp ElemTy.f32 inTy
    match createOpAndInfer TosaKind.mul (TosaAttrs.shiftAttr 0) ElemTy.f32 [up.2, scaleTy] with
    | some (mulOp, scaled) =>
      let down := createCastOp ElemTy.i8 scaled
      some ([up.1, mulOp, down.1], down.2)
    | none => none

/-! ### General list lemmas used by the claim proofs -/

theorem get?_eq_some_getD {α : Type} (d : α) :
    ∀ (l : List α) (n : Nat), n < l.length → l.get? n = some (l.getD n d)
  | _ :: _, 0, _ => rfl
  | a :: l, n + 1, h => by
    have ih := get?_eq_some_getD d l n (by simp at h; omega)
    exact ih
  | [], n, h => by simp at h

theorem lt_length_of_get?_some {α : Type} {l : List α} {n : Nat} {x : α}
    (h : l.get? n = some x) : n < l.length := by
  by_contra hn
  rw [List.get?_eq_none.mpr (by omega)] at h
  exact Option.noConfusion h

theorem getD_eq_get?_getD {α : Type} (l : List α) (n : Nat) (d : α) :
    l.getD n d = (l.get? n).getD d := by
  induction l generalizing n with
  | nil => cases n <;> rfl
  | cons a t ih => cases n with
    | zero => rfl
    | succ m => exact ih m

/-! ### Claim C10: bounds of the dot row/col shape accesses -/

theorem dotOperandRowCol_isSome_le {dims : Shape} {outRank : Nat}
    (h : (dotOperandRowCol dims outRank).isSome) : outRank ≤ dims.length := by
  by_contra hlt
  push_neg at hlt
  rcases Nat.eq_zero_or_pos outRank with h0 | h0
  · omega
  · have h1 : dims.get? (outRank - 1) = none := List.get?_eq_none.mpr (by omega)
    unfold dotOperandRowCol at h
    rw [h1] at h
    rcases dims.get? (outRank - 2) with _ | x <;> simp at h

/-- C10: in the dot flattening path, rows and cols of each operand are read
at positions `outRank - 2` and `outRank - 1` of that operand's shape (with
`outRank` the rank of the output, not the operand's own rank), so the reads
return a value in the total embedding only when each operand's rank is at
least the output's rank. -/
theorem dot_row_col_access_bounds :
    ∀ (dimsA dimsB : Shape) (outRank : Nat),
      (dotOperandRowCol dimsA outRank).isSome →
      (dotOperandRowCol dimsB outRank).isSome →
      outRank ≤ dimsA.length ∧ outRank ≤ dimsB.length :=
  fun _ _ _ hA hB => ⟨dotOperandRowCol_isSome_le hA, dotOperandRowCol_isSome_le hB⟩

/-- Witness for C10 at a concrete input. -/
theorem dot_row_col_access_bounds_witness :
    ((dotOperandRowCol [1, 2, 3] 3).isSome ∧ (dotOperandRowCol [4, 5, 6] 3).isSome) ∧
    (3 ≤ ([1, 2, 3] : Shape).length ∧ 3 ≤ ([4, 5, 6] : Shape).length) :=
  ⟨⟨by decide, by decide⟩, dot_row_col_access_bounds [1, 2, 3] [4, 5, 6] 3 (by decide) (by decide)⟩

/-! ### Claim C1: the batched-dot broadcast example -/

/-- C1 counterexample: on A `[2,3,4,5]`, B `[1,5,6]`, output `[2,3,4,6]`,
the rewrite does not reshape A to `[1,12,5]`; it reads the rank-3 B shape
out of bounds at position `outRank - 1 = 3` and crashes. -/
theorem dot_example_rank3_cex :
    dotRewrite ⟨[2, 3, 4, 5], ElemTy.f32⟩ ⟨[1, 5, 6], ElemTy.f32⟩ ⟨[2, 3, 4, 6], ElemTy.f32⟩ =
      Outcome.crash := by decide

/-- C1 (amended): with the batch-1 B operand given at the output's rank,
`[1,1,5,6]`, the rewrite reshapes A `[2,3,4,5]` to the flattened rank-3
shape `[1,24,5]` (batch 6 folded into the rows) and reshapes the matmul
result back to the output shape `[2,3,4,6]`. -/
theorem dot_example_flatten_amended :
    dotRewrite ⟨[2, 3, 4, 5], ElemTy.f32⟩ ⟨[1, 1, 5, 6], ElemTy.f32⟩ ⟨[2, 3, 4, 6], ElemTy.f32⟩ =
      Outcome.success
        ([EmittedOp.mk TosaKind.reshape (TosaAttrs.shapeAttr [1, 24, 5])
            [⟨[2, 3, 4, 5], ElemTy.f32⟩] ⟨[1, 24, 5], ElemTy.f32⟩,
          EmittedOp.mk TosaKind.reshape (TosaAttrs.shapeAttr [1, 5, 6])
            [⟨[1, 1, 5, 6], ElemTy.f32⟩] ⟨[1, 5, 6], ElemTy.f32⟩,
          EmittedOp.mk TosaKind.matmul TosaAttrs.noAttrs
            [⟨[1, 24, 5], ElemTy.f32⟩, ⟨[1, 5, 6], ElemTy.f32⟩] ⟨[1, 24, 6], ElemTy.f32⟩,
          EmittedOp.mk TosaKind.reshape (TosaAttrs.shapeAttr [2, 3, 4, 6])
            [⟨[1, 24, 6], ElemTy.f32⟩] ⟨[2, 3, 4, 6], ElemTy.f32⟩],
         ⟨[2, 3, 4, 6], ElemTy.f32⟩) := by decide

/-! ### Claim C4: batch-size mismatch handling in the dot lowering -/

/-- C4 counterexample: batch sizes 6 and 3 differ, the B batch size is not
1, and the claim promises a reportable failure; but with a rank-3 B the
code reads the B shape out of bounds before the batch check, so the
outcome is a crash, not the reportable failure. -/
theorem dot_batch_mismatch_crash_cex :
    listProd (([2, 3, 4, 5] : Shape).take 2) ≠ listProd (([3, 5, 6] : Shape).take 1) ∧
    listProd (([3, 5, 6] : Shape).take 1) ≠ 1 ∧
    dotRewrite ⟨[2, 3, 4, 5], ElemTy.f32⟩ ⟨[3, 5, 6], ElemTy.f32⟩ ⟨[2, 3, 4, 6], ElemTy.f32⟩ =
      Outcome.crash := by decide

theorem dotOperandRowCol_eq_of_le (dims : Shape) {outRank : Nat}
    (h2 : 2 ≤ outRank) (hle : outRank ≤ dims.length) :
    dotOperandRowCol dims outRank =
      some (dims.getD (outRank - 2) 0, dims.getD (outRank - 1) 0) := by
  unfold dotOperandRowCol
  rw [get?_eq_some_getD 0 dims (outRank - 2) (by omega),
      get?_eq_some_getD 0 dims (outRank - 1) (by omega)]

/-- C4 (amended): provided each operand's rank is at least the output's
rank (so the row/col reads at `outRank - 2`, `outRank - 1` are in bounds;
otherwise the unchecked reads crash, see C10 and the counterexample),
whenever the flattened batch sizes of A and B differ the rewrite succeeds
exactly when the B batch size is 1, folding the A batch into the row
dimension of the flattened A shape and of the flattened output shape; any
other mismatch is the reportable `matmulCannotBroadcast` failure. -/
theorem dot_batch_fold_amended :
    ∀ (aTy bTy outTy : TensorTy),
      2 ≤ outTy.shape.length →
      outTy.shape.length ≤ aTy.shape.length →
      outTy.shape.length ≤ bTy.shape.length →
      listProd (aTy.shape.take (aTy.shape.length - 2)) ≠
        listProd (bTy.shape.take (bTy.shape.length - 2)) →
      (listProd (bTy.shape.take (bTy.shape.length - 2)) = 1 →
        dotRewrite aTy bTy outTy =
          dotEmitFlattened aTy bTy outTy aTy.elemTy
            [1,
             aTy.shape.getD (outTy.shape.length - 2) 0 *
               listProd (aTy.shape.take (aTy.shape.length - 2)),
             aTy.shape.getD (outTy.shape.length - 1) 0]
            [1, bTy.shape.getD (outTy.shape.length - 2) 0,
             bTy.shape.getD (outTy.shape.length - 1) 0]
            [1,
             outTy.shape.getD (outTy.shape.length - 2) 0 *
               listProd (outTy.shape.take (outTy.shape.length - 2)),
             outTy.shape.getD (outTy.shape.length - 1) 0]) ∧
      (listProd (bTy.shape.take (bTy.shape.length - 2)) ≠ 1 →
        dotRewrite aTy bTy outTy = Outcome.failure RewriteErr.matmulCannotBroadcast) := by
  intro aTy bTy outTy h2 hA hB hne
  have hcond : outTy.shape.length ≠ 3 ∨ aTy.shape.length ≠ bTy.shape.length ∨
      (outTy.shape.length = 3 ∧ aTy.shape ≠ bTy.shape) := by
    by_cases hAB : aTy.shape = bTy.shape
    · exact absurd (by rw [hAB]) hne
    · by_cases h3 : outTy.shape.length = 3
      · exact Or.inr (Or.inr ⟨h3, hAB⟩)
      · exact Or.inl h3
  have hguard : ¬(outTy.shape.length < 2 ∨ aTy.shape.length < 2 ∨ bTy.shape.length < 2) := by
    omega
  have hrcA := dotOperandRowCol_eq_of_le aTy.shape h2 hA
  have hrcB := dotOperandRowCol_eq_of_le bTy.shape h2 hB
  have hsome : (dotOperandRowCol aTy.shape outTy.shape.length).isSome ∧
      (dotOperandRowCol bTy.shape outTy.shape.length).isSome := by
    rw [hrcA, hrcB]; exact ⟨rfl, rfl⟩
  constructor
  · intro hb1
    simp only [dotRewrite]
    rw [if_pos hcond, if_neg hguard, if_pos hsome, if_pos hne, if_pos hb1, hb1]
  · intro hbne
    simp only [dotRewrite]
    rw [if_pos hcond, if_neg hguard, if_pos hsome, if_pos hne, if_neg hbne]

/-- Witness for C4 (amended) at a concrete input: A `[2,4,5]` (batch 2),
B `[1,5,6]` (batch 1), output `[2,4,6]`. -/
theorem dot_batch_fold_amended_witness :
    (2 ≤ ([2, 4, 6] : Shape).length ∧
     listProd (([2, 4, 5] : Shape).take 1) ≠ listProd (([1, 5, 6] : Shape).take 1)) ∧
    ((listProd (([1, 5, 6] : Shape).take 1) = 1 →
        dotRewrite ⟨[2, 4, 5], ElemTy.f32⟩ ⟨[1, 5, 6], ElemTy.f32⟩ ⟨[2, 4, 6], ElemTy.f32⟩ =
          dotEmitFlattened ⟨[2, 4, 5], ElemTy.f32⟩ ⟨[1, 5, 6], ElemTy.f32⟩
            ⟨[2, 4, 6], ElemTy.f32⟩ ElemTy.f32
            [1, ([2, 4, 5] : Shape).getD 1 0 * listProd (([2, 4, 5] : Shape).take 1),
             ([2, 4, 5] : Shape).getD 2 0]
            [1, ([1, 5, 6] : Shape).getD 1 0, ([1, 5, 6] : Shape).getD 2 0]
            [1, ([2, 4, 6] : Shape).getD 1 0 * listProd (([2, 4, 6] : Shape).take 1),
             ([2, 4, 6] : Shape).getD 2 0]) ∧
     (listProd (([1, 5, 6] : Shape).take 1) ≠ 1 →
        dotRewrite ⟨[2, 4, 5], ElemTy.f32⟩ ⟨[1, 5, 6], ElemTy.f32⟩ ⟨[2, 4, 6], ElemTy.f32⟩ =
          Outcome.failure RewriteErr.matmulCannotBroadcast)) :=
  ⟨⟨by decide, by decide⟩,
   dot_batch_fold_amended ⟨[2, 4, 5], ElemTy.f32⟩ ⟨[1, 5, 6], ElemTy.f32⟩
     ⟨[2, 4, 6], ElemTy.f32⟩ (by decide) (by decide) (by decide) (by decide)⟩

/-! ### Claim C6: broadcast shape alignment -/

/-- C6: in the broadcast lowering, when the output rank R differs from the
input rank r the reshape target shape is the rank-R list of ones with the
input's first extent at the alignment axis ([4] at rank 4, axis 1 gives
[1,4,1,1]); when the ranks agree no reshape is emitted. -/
theorem broadcast_align_rule :
    (∀ (inTy outTy : TensorTy) (axis : Int) (consumers : List Consumer),
      inTy.shape.length ≤ outTy.shape.length →
      outTy.shape.length ≠ inTy.shape.length →
      0 ≤ axis → axis.toNat < outTy.shape.length → inTy.shape ≠ [] →
      broadcastRewrite inTy outTy axis consumers =
        some ⟨(rewireAll consumers).1,
              [EmittedOp.mk TosaKind.reshape
                 (TosaAttrs.shapeAttr
                   ((List.replicate outTy.shape.length (1 : Int)).set axis.toNat
                     (inTy.shape.headD 1)))
                 [inTy]
                 ⟨(List.replicate outTy.shape.length (1 : Int)).set axis.toNat
                    (inTy.shape.headD 1), outTy.elemTy⟩],
              (rewireAll consumers).2, (rewireAll consumers).1⟩) ∧
    (∀ (inTy outTy : TensorTy) (axis : Int) (consumers : List Consumer),
      outTy.shape.length = inTy.shape.length →
      broadcastRewrite inTy outTy axis consumers =
        some ⟨(rewireAll consumers).1, [], (rewireAll consumers).2, (rewireAll consumers).1⟩) ∧
    broadcastAlignShape [4] 4 1 = some [1, 4, 1, 1] := by
  refine ⟨?_, ?_, by decide⟩
  · intro inTy outTy axis consumers _hle hne h0 hax hnil
    have hhead : inTy.shape.head? = some (inTy.shape.headD 1) := by
      cases h : inTy.shape with
      | nil => exact absurd h hnil
      | cons x xs => simp [h]
    have halign : broadcastAlignShape inTy.shape outTy.shape.length axis =
        some ((List.replicate outTy.shape.length (1 : Int)).set axis.toNat
          (inTy.shape.headD 1)) := by
      unfold broadcastAlignShape
      rw [if_pos ⟨h0, hax⟩, hhead]
    simp only [broadcastRewrite]
    rw [if_pos hne, halign]
  · intro inTy outTy axis consumers heq
    simp only [broadcastRewrite]
    rw [if_neg (not_not_intro heq)]

/-- Witness for C6 at a concrete input: input `[4]`, output `[2,4]`,
axis 1, one binary consumer. -/
theorem broadcast_align_rule_witness :
    (([4] : Shape).length ≤ ([2, 4] : Shape).length ∧ (0 : Int) ≤ 1) ∧
    broadcastRewrite ⟨[4], ElemTy.f32⟩ ⟨[2, 4], ElemTy.f32⟩ 1
        [⟨[OpndV.other 3, OpndV.bres], ⟨[2, 4], ElemTy.f32⟩⟩] =
      some ⟨(rewireAll [⟨[OpndV.other 3, OpndV.bres], ⟨[2, 4], ElemTy.f32⟩⟩]).1,
            [EmittedOp.mk TosaKind.reshape
               (TosaAttrs.shapeAttr
                 ((List.replicate ([2, 4] : Shape).length (1 : Int)).set (1 : Int).toNat
                   (([4] : Shape).headD 1)))
               [⟨[4], ElemTy.f32⟩]
               ⟨(List.replicate ([2, 4] : Shape).length (1 : Int)).set (1 : Int).toNat
                  (([4] : Shape).headD 1), ElemTy.f32⟩],
            (rewireAll [⟨[OpndV.other 3, OpndV.bres], ⟨[2, 4], ElemTy.f32⟩⟩]).2,
            (rewireAll [⟨[OpndV.other 3, OpndV.bres], ⟨[2, 4], ElemTy.f32⟩⟩]).1⟩ :=
  ⟨⟨by decide, by decide⟩,
   broadcast_align_rule.1 ⟨[4], ElemTy.f32⟩ ⟨[2, 4], ElemTy.f32⟩ 1
     [⟨[OpndV.other 3, OpndV.bres], ⟨[2, 4], ElemTy.f32⟩⟩]
     (by decide) (by decide) (by decide) (by decide) (by decide)⟩

/-! ### Claim C7: layout transpose shape computation and round trip -/

/-- C7: the transpose construction computes the input shape permuted by the
given permutation, and the channel-last permutation `[0,2,3,1]` followed by
its inverse `[0,3,1,2]` reproduces every 4-extent shape, in particular
`[1,3,8,8]`. -/
theorem transpose_perm_round_trip :
    (∀ (s : Shape) (p0 p1 p2 p3 : Nat),
      p0 < s.length → p1 < s.length → p2 < s.length → p3 < s.length →
      getRank4TransposeShape [p0, p1, p2, p3] s =
        some [s.getD p0 0, s.getD p1 0, s.getD p2 0, s.getD p3 0]) ∧
    (∀ s : Shape, s.length = 4 →
      (getRank4TransposeShape [0, 2, 3, 1] s).bind (getRank4TransposeShape [0, 3, 1, 2]) =
        some s) ∧
    (getRank4TransposeShape [0, 2, 3, 1] [1, 3, 8, 8]).bind (getRank4TransposeShape [0, 3, 1, 2]) =
      some [1, 3, 8, 8] := by
  refine ⟨?_, ?_, by decide⟩
  · intro s p0 p1 p2 p3 h0 h1 h2 h3
    simp only [getRank4TransposeShape, get?_eq_some_getD 0 s p0 h0,
      get?_eq_some_getD 0 s p1 h1, get?_eq_some_getD 0 s p2 h2,
      get?_eq_some_getD 0 s p3 h3]
  · intro s hs
    rcases s with _ | ⟨a, s⟩
    · simp at hs
    rcases s with _ | ⟨b, s⟩
    · simp at hs
    rcases s with _ | ⟨c, s⟩
    · simp at hs
    rcases s with _ | ⟨d, s⟩
    · simp at hs
    rcases s with _ | ⟨e, s⟩
    · rfl
    · simp at hs

/-- Witness for C7 at concrete inputs. -/
theorem transpose_perm_round_trip_witness :
    (0 < ([5, 6, 7, 8] : Shape).length ∧ 2 < ([5, 6, 7, 8] : Shape).length ∧
     ([9, 8, 7, 6] : Shape).length = 4) ∧
    getRank4TransposeShape [0, 2, 3, 1] [5, 6, 7, 8] =
      some [([5, 6, 7, 8] : Shape).getD 0 0, ([5, 6, 7, 8] : Shape).getD 2 0,
            ([5, 6, 7, 8] : Shape).getD 3 0, ([5, 6, 7, 8] : Shape).getD 1 0] ∧
    (getRank4TransposeShape [0, 2, 3, 1] [9, 8, 7, 6]).bind (getRank4TransposeShape [0, 3, 1, 2]) =
      some [9, 8, 7, 6] :=
  ⟨⟨by decide, by decide, by decide⟩,
   transpose_perm_round_trip.1 [5, 6, 7, 8] 0 2 3 1 (by decide) (by decide) (by decide) (by decide),
   transpose_perm_round_trip.2.1 [9, 8, 7, 6] (by decide)⟩

/-! ### Claim C5: the multi-broadcast reshape target shape -/

/-- C5 counterexample: input shape `[2,3]`, one binary consumer with output
shape `[7,9,4,5]` (rank gap 2).  The claim says the first two extents of
the reshape shape are copied from the consumer's output shape (giving
`[7,9,1,1]`), but the code copies them from the input shape: the emitted
reshape has shape `[2,3,1,1]`. -/
theorem multi_broadcast_leading_cex :
    multiBroadcastRewrite ⟨[2, 3], ElemTy.f32⟩
        [⟨[OpndV.other 1, OpndV.bres], ⟨[7, 9, 4, 5], ElemTy.f32⟩⟩] =
      some ⟨true,
            [EmittedOp.mk TosaKind.reshape (TosaAttrs.shapeAttr [2, 3, 1, 1])
               [⟨[2, 3], ElemTy.f32⟩] ⟨[2, 3, 1, 1], ElemTy.f32⟩],
            [⟨[OpndV.other 1, OpndV.newOp], ⟨[7, 9, 4, 5], ElemTy.f32⟩⟩], true⟩ ∧
    ([2, 3, 1, 1] : Shape) ≠ [7, 9, 1, 1] := by decide

/-- C5 (amended): for a qualifying binary consumer whose output rank R
exceeds the input rank r with R - r ≤ r (otherwise the copy loop reads out
of bounds), the reshape target shape copies its first R - r extents from
the INPUT shape and sets the remaining r trailing extents to 1. -/
theorem multi_broadcast_reshape_amended :
    ∀ (inTy : TensorTy) (c : Consumer),
      c.opnds.length = 2 →
      inTy.shape.length < c.resTy.shape.length →
      c.resTy.shape.length - inTy.shape.length ≤ inTy.shape.length →
      ∃ cs, multiBroadcastRewrite inTy [c] =
        some ⟨true,
              [EmittedOp.mk TosaKind.reshape
                 (TosaAttrs.shapeAttr
                   (inTy.shape.take (c.resTy.shape.length - inTy.shape.length) ++
                     List.replicate inTy.shape.length (1 : Int)))
                 [inTy]
                 ⟨inTy.shape.take (c.resTy.shape.length - inTy.shape.length) ++
                    List.replicate inTy.shape.length (1 : Int), c.resTy.elemTy⟩],
              cs, true⟩ := by
  intro inTy c hlen hlt hle
  have hshape : multiBroadcastShape inTy.shape c.resTy.shape.length =
      some (inTy.shape.take (c.resTy.shape.length - inTy.shape.length) ++
        List.replicate inTy.shape.length (1 : Int)) := by
    unfold multiBroadcastShape
    rw [if_neg (by omega), if_neg (by omega)]
  have hne : c.resTy.shape.length ≠ inTy.shape.length := by omega
  by_cases hsw : c.opnds.getD 1 (OpndV.other 0) = OpndV.bres
  · refine ⟨[Consumer.mk (replaceFirstBres c.opnds OpndV.newOp) c.resTy], ?_⟩
    simp only [multiBroadcastRewrite, multiRewireAll, isBroadcastable]
    rw [if_neg (not_not_intro hlen), if_neg (not_not_intro hsw)]
    simp [hshape, hne]
  · refine ⟨[Consumer.mk
        (replaceFirstBres [c.opnds.getD 1 (OpndV.other 0), OpndV.bres] OpndV.newOp) c.resTy], ?_⟩
    simp only [multiBroadcastRewrite, multiRewireAll, isBroadcastable]
    rw [if_neg (not_not_intro hlen), if_pos hsw]
    simp [hshape, hne]

/-- Witness for C5 (amended) at a concrete input: input `[2,3]`, binary
consumer with output shape `[4,2,3]`. -/
theorem multi_broadcast_reshape_amended_witness :
    (([OpndV.bres, OpndV.other 2] : List OpndV).length = 2 ∧
     ([2, 3] : Shape).length < ([4, 2, 3] : Shape).length) ∧
    ∃ cs, multiBroadcastRewrite ⟨[2, 3], ElemTy.f32⟩
        [⟨[OpndV.bres, OpndV.other 2], ⟨[4, 2, 3], ElemTy.f32⟩⟩] =
      some ⟨true,
            [EmittedOp.mk TosaKind.reshape
               (TosaAttrs.shapeAttr
                 (([2, 3] : Shape).take (([4, 2, 3] : Shape).length - ([2, 3] : Shape).length) ++
                   List.replicate ([2, 3] : Shape).length (1 : Int)))
               [⟨[2, 3], ElemTy.f32⟩]
               ⟨([2, 3] : Shape).take (([4, 2, 3] : Shape).length - ([2, 3] : Shape).length) ++
                  List.replicate ([2, 3] : Shape).length (1 : Int), ElemTy.f32⟩],
            cs, true⟩ :=
  ⟨⟨by decide, by decide⟩,
   multi_broadcast_reshape_amended ⟨[2, 3], ElemTy.f32⟩
     ⟨[OpndV.bres, OpndV.other 2], ⟨[4, 2, 3], ElemTy.f32⟩⟩
     (by decide) (by decide) (by decide)⟩

/-! ### Claim C3: mutations are not rolled back on a reportable failure -/

/-- C3: a broadcast whose result feeds one qualifying binary consumer and
one single-operand consumer.  The rule returns failure at the second
consumer, but the first consumer's operand list has already been rewired to
the replacement value by a direct operand write, and that mutation is kept
in the failure state; the spec requires the consumers' operand lists to be
exactly as they were. -/
theorem broadcast_partial_mutation_on_failure :
    broadcastRewrite ⟨[4], ElemTy.f32⟩ ⟨[2, 4], ElemTy.f32⟩ 1
        [⟨[OpndV.other 7, OpndV.bres], ⟨[2, 4], ElemTy.f32⟩⟩,
         ⟨[OpndV.bres], ⟨[2, 4], ElemTy.f32⟩⟩] =
      some ⟨false,
            [EmittedOp.mk TosaKind.reshape (TosaAttrs.shapeAttr [1, 4])
               [⟨[4], ElemTy.f32⟩] ⟨[1, 4], ElemTy.f32⟩],
            [⟨[OpndV.other 7, OpndV.newOp], ⟨[2, 4], ElemTy.f32⟩⟩,
             ⟨[OpndV.bres], ⟨[2, 4], ElemTy.f32⟩⟩],
            false⟩ ∧
    ([⟨[OpndV.other 7, OpndV.newOp], ⟨[2, 4], ElemTy.f32⟩⟩,
      ⟨[OpndV.bres], ⟨[2, 4], ElemTy.f32⟩⟩] : List Consumer) ≠
      [⟨[OpndV.other 7, OpndV.bres], ⟨[2, 4], ElemTy.f32⟩⟩,
       ⟨[OpndV.bres], ⟨[2, 4], ElemTy.f32⟩⟩] := by decide

/-! ### Inversion and oracle helper lemmas -/

theorem createOpAndInfer_eq_some {k : TosaKind} {attrs : TosaAttrs} {elemTy : ElemTy}
    {ins : List TensorTy} {op : EmittedOp} {t : TensorTy}
    (h : createOpAndInfer k attrs elemTy ins = some (op, t)) :
    ∃ u, inferTosa k attrs ins = some u ∧
      op = EmittedOp.mk k attrs ins ⟨u.shape, elemTy⟩ ∧ t = ⟨u.shape, elemTy⟩ := by
  unfold createOpAndInfer at h
  rcases hu : inferTosa k attrs ins with _ | u <;> rw [hu] at h
  · exact Option.noConfusion h
  · refine ⟨u, rfl, ?_, ?_⟩
    · injection h with h
      exact (congrArg Prod.fst h).symm
    · injection h with h
      exact (congrArg Prod.snd h).symm

theorem createOpAndInfer_wellInferred {k : TosaKind} {attrs : TosaAttrs} {elemTy : ElemTy}
    {ins : List TensorTy} {op : EmittedOp} {t : TensorTy}
    (h : createOpAndInfer k attrs elemTy ins = some (op, t))
    (helem : ∀ u, inferTosa k attrs ins = some u → u.elemTy = elemTy) :
    wellInferred op := by
  obtain ⟨u, hu, hop, _⟩ := createOpAndInfer_eq_some h
  have he := helem u hu
  rw [hop]
  show inferTosa k attrs ins = some ⟨u.shape, elemTy⟩
  rw [← he]
  exact hu

theorem createCastOp_wellInferred (e : ElemTy) (input : TensorTy) :
    wellInferred (createCastOp e input).1 := rfl

theorem map_mk_elem {o : Option Shape} {e : ElemTy} {u : TensorTy}
    (h : o.map (fun s => (⟨s, e⟩ : TensorTy)) = some u) : u.elemTy = e := by
  rcases o with _ | s
  · exact Option.noConfusion h
  · injection h with h
    rw [← h]

theorem broadcastDim_one (x : Int) : broadcastDim x 1 = some x := by
  unfold broadcastDim
  by_cases h : x = 1
  · simp [h]
  · simp [h]

theorem broadcastDims_ones : ∀ s : Shape, broadcastDims s (List.replicate s.length 1) = some s
  | [] => rfl
  | x :: xs => by
    simp only [List.length_cons, List.replicate_succ, broadcastDims, broadcastDim_one,
      broadcastDims_ones xs]

theorem broadcastShapes_one {s : Shape} (h : s ≠ []) : broadcastShapes s [1] = some s := by
  have hlen : 1 ≤ s.length := by
    cases s with
    | nil => exact absurd rfl h
    | cons a t => simp
  have hmax : max s.length ([1] : Shape).length = s.length := by
    simp; omega
  have hpads : padToRank s s.length = s := by
    unfold padToRank
    simp
  have hpad1 : padToRank [1] s.length = List.replicate s.length 1 := by
    unfold padToRank
    have h1 : List.replicate (s.length - 1) (1 : Int) ++ [1] =
        List.replicate (s.length - 1 + 1) (1 : Int) := (List.replicate_succ' _ _).symm
    simp only [List.length_cons, List.length_nil, Nat.zero_add, h1]
    congr 1
    omega
  have hdef : broadcastShapes s [1] =
      broadcastDims (padToRank s (max s.length ([1] : Shape).length))
        (padToRank [1] (max s.length ([1] : Shape).length)) := rfl
  rw [hdef, hmax, hpads, hpad1, broadcastDims_ones]

/-! ### Claim C9: reduce-mean supports exactly one axis -/

/-- C9: a reduce-mean with any number of axes other than one is the
reportable `singleAxisOnly` failure with no operation created; with exactly
one (in-range) axis it succeeds with the element-count constant, its
reciprocal, the multiply by the reciprocal, and the reduce-sum along the
axis. -/
theorem reduce_mean_single_axis :
    (∀ (inTy : TensorTy) (axes : List Int), axes.length ≠ 1 →
      reduceMeanRewrite inTy axes = Outcome.failure RewriteErr.singleAxisOnly) ∧
    (∀ (inTy : TensorTy) (a : Int), 0 ≤ a → a.toNat < inTy.shape.length →
      reduceMeanRewrite inTy [a] =
        Outcome.success
          ([EmittedOp.mk TosaKind.const
              (TosaAttrs.constAttr ⟨[1], inTy.elemTy⟩ [inTy.shape.getD a.toNat 0]) []
              ⟨[1], inTy.elemTy⟩,
            EmittedOp.mk TosaKind.reciprocal TosaAttrs.noAttrs [⟨[1], inTy.elemTy⟩]
              ⟨[1], inTy.elemTy⟩,
            EmittedOp.mk TosaKind.mul (TosaAttrs.shiftAttr 0) [inTy, ⟨[1], inTy.elemTy⟩]
              ⟨inTy.shape, inTy.elemTy⟩,
            EmittedOp.mk TosaKind.reduceSum (TosaAttrs.axisAttr a) [⟨inTy.shape, inTy.elemTy⟩]
              ⟨inTy.shape.set a.toNat 1, inTy.elemTy⟩],
           ⟨inTy.shape.set a.toNat 1, inTy.elemTy⟩)) := by
  constructor
  · intro inTy axes hne
    unfold reduceMeanRewrite
    rw [if_pos hne]
  · intro inTy a h0 hlt
    have hnil : inTy.shape ≠ [] := by
      intro hh
      rw [hh] at hlt
      simp at hlt
    have hrec : createOpAndInfer TosaKind.reciprocal TosaAttrs.noAttrs inTy.elemTy
        [⟨[1], inTy.elemTy⟩] = some
          (EmittedOp.mk TosaKind.reciprocal TosaAttrs.noAttrs [⟨[1], inTy.elemTy⟩]
            ⟨[1], inTy.elemTy⟩, ⟨[1], inTy.elemTy⟩) := rfl
    have hmulInf : inferTosa TosaKind.mul (TosaAttrs.shiftAttr 0) [inTy, ⟨[1], inTy.elemTy⟩] =
        some ⟨inTy.shape, inTy.elemTy⟩ := by
      show (broadcastShapes inTy.shape [1]).map (fun s => (⟨s, inTy.elemTy⟩ : TensorTy)) =
        some ⟨inTy.shape, inTy.elemTy⟩
      rw [broadcastShapes_one hnil]
      rfl
    have hmul : createOpAndInfer TosaKind.mul (TosaAttrs.shiftAttr 0) inTy.elemTy
        [inTy, ⟨[1], inTy.elemTy⟩] = some
          (EmittedOp.mk TosaKind.mul (TosaAttrs.shiftAttr 0) [inTy, ⟨[1], inTy.elemTy⟩]
            ⟨inTy.shape, inTy.elemTy⟩, ⟨inTy.shape, inTy.elemTy⟩) := by
      unfold createOpAndInfer
      rw [hmulInf]
    have hsumInf : inferTosa TosaKind.reduceSum (TosaAttrs.axisAttr a)
        [⟨inTy.shape, inTy.elemTy⟩] = some ⟨inTy.shape.set a.toNat 1, inTy.elemTy⟩ := by
      show (reduceShape inTy.shape a).map (fun s => (⟨s, inTy.elemTy⟩ : TensorTy)) =
        some ⟨inTy.shape.set a.toNat 1, inTy.elemTy⟩
      unfold reduceShape
      rw [if_pos ⟨h0, hlt⟩]
      rfl
    have hsum : createOpAndInfer TosaKind.reduceSum (TosaAttrs.axisAttr a) inTy.elemTy
        [⟨inTy.shape, inTy.elemTy⟩] = some
          (EmittedOp.mk TosaKind.reduceSum (TosaAttrs.axisAttr a) [⟨inTy.shape, inTy.elemTy⟩]
            ⟨inTy.shape.set a.toNat 1, inTy.elemTy⟩, ⟨inTy.shape.set a.toNat 1, inTy.elemTy⟩) := by
      unfold createOpAndInfer
      rw [hsumInf]
    unfold reduceMeanRewrite
    rw [if_neg (by simp)]
    simp only [show ([a] : List Int).getD 0 0 = a from rfl]
    rw [if_pos ⟨h0, hlt⟩]
    simp only [hrec, hmul, hsum]

/-- Witness for C9 at concrete inputs: two axes fail; one axis succeeds. -/
theorem reduce_mean_single_axis_witness :
    (([0, 1] : List Int).length ≠ 1 ∧ (0 : Int) ≤ 1 ∧ (1 : Int).toNat < ([4, 6] : Shape).length) ∧
    reduceMeanRewrite ⟨[4, 6], ElemTy.f32⟩ [0, 1] = Outcome.failure RewriteErr.singleAxisOnly ∧
    reduceMeanRewrite ⟨[4, 6], ElemTy.f32⟩ [1] =
      Outcome.success
        ([EmittedOp.mk TosaKind.const
            (TosaAttrs.constAttr ⟨[1], ElemTy.f32⟩ [(([4, 6] : Shape)).getD (1 : Int).toNat 0]) []
            ⟨[1], ElemTy.f32⟩,
          EmittedOp.mk TosaKind.reciprocal TosaAttrs.noAttrs [⟨[1], ElemTy.f32⟩]
            ⟨[1], ElemTy.f32⟩,
          EmittedOp.mk TosaKind.mul (TosaAttrs.shiftAttr 0) [⟨[4, 6], ElemTy.f32⟩, ⟨[1], ElemTy.f32⟩]
            ⟨[4, 6], ElemTy.f32⟩,
          EmittedOp.mk TosaKind.reduceSum (TosaAttrs.axisAttr 1) [⟨[4, 6], ElemTy.f32⟩]
            ⟨([4, 6] : Shape).set (1 : Int).toNat 1, ElemTy.f32⟩],
         ⟨([4, 6] : Shape).set (1 : Int).toNat 1, ElemTy.f32⟩) :=
  ⟨⟨by decide, by decide, by decide⟩,
   reduce_mean_single_axis.1 ⟨[4, 6], ElemTy.f32⟩ [0, 1] (by decide),
   reduce_mean_single_axis.2 ⟨[4, 6], ElemTy.f32⟩ 1 (by decide) (by decide)⟩

/-! ### Claim C8: the quantize-linear chain -/

/-- C8: the quantize-linear lowering always produces exactly the chain
add-of-bias (when a bias is present, in the source element type), upcast to
f32, multiply by the scale operand in f32, downcast to i8, whose result is
the replacement; with no bias the chain starts at the upcast. -/
theorem quantize_linear_chain :
    (∀ (inTy scaleTy b : TensorTy) (ops : List EmittedOp) (rep : TensorTy),
      quantizeLinearRewrite inTy scaleTy (some b) = some (ops, rep) →
      ∃ sAdd sMul : Shape,
        ops = [EmittedOp.mk TosaKind.add TosaAttrs.noAttrs [inTy, b] ⟨sAdd, inTy.elemTy⟩,
               EmittedOp.mk TosaKind.cast (TosaAttrs.castAttr ElemTy.f32)
                 [⟨sAdd, inTy.elemTy⟩] ⟨sAdd, ElemTy.f32⟩,
               EmittedOp.mk TosaKind.mul (TosaAttrs.shiftAttr 0)
                 [⟨sAdd, ElemTy.f32⟩, scaleTy] ⟨sMul, ElemTy.f32⟩,
               EmittedOp.mk TosaKind.cast (TosaAttrs.castAttr ElemTy.i8)
                 [⟨sMul, ElemTy.f32⟩] ⟨sMul, ElemTy.i8⟩] ∧
        rep = ⟨sMul, ElemTy.i8⟩) ∧
    (∀ (inTy scaleTy : TensorTy) (ops : List EmittedOp) (rep : TensorTy),
      quantizeLinearRewrite inTy scaleTy none = some (ops, rep) →
      ∃ sMul : Shape,
        ops = [EmittedOp.mk TosaKind.cast (TosaAttrs.castAttr ElemTy.f32) [inTy]
                 ⟨inTy.shape, ElemTy.f32⟩,
               EmittedOp.mk TosaKind.mul (TosaAttrs.shiftAttr 0)
                 [⟨inTy.shape, ElemTy.f32⟩, scaleTy] ⟨sMul, ElemTy.f32⟩,
               EmittedOp.mk TosaKind.cast (TosaAttrs.castAttr ElemTy.i8)
                 [⟨sMul, ElemTy.f32⟩] ⟨sMul, ElemTy.i8⟩] ∧
        rep = ⟨sMul, ElemTy.i8⟩) := by
  constructor
  · intro inTy scaleTy b ops rep h
    unfold quantizeLinearRewrite at h
    rcases hadd : createOpAndInfer TosaKind.add TosaAttrs.noAttrs inTy.elemTy [inTy, b] with
      _ | ⟨addOp, shifted⟩
    · simp only [hadd] at h
      exact Option.noConfusion h
    · simp only [hadd] at h
      rcases hmul : createOpAndInfer TosaKind.mul (TosaAttrs.shiftAttr 0) ElemTy.f32
          [(createCastOp ElemTy.f32 shifted).2, scaleTy] with _ | ⟨mulOp, scaled⟩
      · simp only [hmul] at h
        exact Option.noConfusion h
      · simp only [hmul] at h
        obtain ⟨u, _, haddOp, hsh⟩ := createOpAndInfer_eq_some hadd
        obtain ⟨v, _, hmulOp, hsc⟩ := createOpAndInfer_eq_some hmul
        injection h with h
        injection h with h1 h2
        refine ⟨u.shape, v.shape, ?_, ?_⟩
        · rw [← h1]
          subst haddOp hsh hmulOp hsc
          rfl
        · rw [← h2]
          subst hsc
          rfl
  · intro inTy scaleTy ops rep h
    unfold quantizeLinearRewrite at h
    rcases hmul : createOpAndInfer TosaKind.mul (TosaAttrs.shiftAttr 0) ElemTy.f32
        [(createCastOp ElemTy.f32 inTy).2, scaleTy] with _ | ⟨mulOp, scaled⟩
    · simp only [hmul] at h
      exact Option.noConfusion h
    · simp only [hmul] at h
      obtain ⟨v, _, hmulOp, hsc⟩ := createOpAndInfer_eq_some hmul
      injection h with h
      injection h with h1 h2
      refine ⟨v.shape, ?_, ?_⟩
      · rw [← h1]
        subst hmulOp hsc
        rfl
      · rw [← h2]
        subst hsc
        rfl

/-- Witness for C8 at a concrete input with a bias operand. -/
theorem quantize_linear_chain_witness :
    quantizeLinearRewrite ⟨[2], ElemTy.f16⟩ ⟨[2], ElemTy.f32⟩ (some ⟨[2], ElemTy.f16⟩) =
      some ([EmittedOp.mk TosaKind.add TosaAttrs.noAttrs
               [⟨[2], ElemTy.f16⟩, ⟨[2], ElemTy.f16⟩] ⟨[2], ElemTy.f16⟩,
             EmittedOp.mk TosaKind.cast (TosaAttrs.castAttr ElemTy.f32)
               [⟨[2], ElemTy.f16⟩] ⟨[2], ElemTy.f32⟩,
             EmittedOp.mk TosaKind.mul (TosaAttrs.shiftAttr 0)
               [⟨[2], ElemTy.f32⟩, ⟨[2], ElemTy.f32⟩] ⟨[2], ElemTy.f32⟩,
             EmittedOp.mk TosaKind.cast (TosaAttrs.castAttr ElemTy.i8)
               [⟨[2], ElemTy.f32⟩] ⟨[2], ElemTy.i8⟩],
            ⟨[2], ElemTy.i8⟩) ∧
    ∃ sAdd sMul : Shape,
      ([EmittedOp.mk TosaKind.add TosaAttrs.noAttrs
          [⟨[2], ElemTy.f16⟩, ⟨[2], ElemTy.f16⟩] ⟨[2], ElemTy.f16⟩,
        EmittedOp.mk TosaKind.cast (TosaAttrs.castAttr ElemTy.f32)
          [⟨[2], ElemTy.f16⟩] ⟨[2], ElemTy.f32⟩,
        EmittedOp.mk TosaKind.mul (TosaAttrs.shiftAttr 0)
          [⟨[2], ElemTy.f32⟩, ⟨[2], ElemTy.f32⟩] ⟨[2], ElemTy.f32⟩,
        EmittedOp.mk TosaKind.cast (TosaAttrs.castAttr ElemTy.i8)
          [⟨[2], ElemTy.f32⟩] ⟨[2], ElemTy.i8⟩] : List EmittedOp) =
        [EmittedOp.mk TosaKind.add TosaAttrs.noAttrs
           [⟨[2], ElemTy.f16⟩, ⟨[2], ElemTy.f16⟩] ⟨sAdd, ElemTy.f16⟩,
         EmittedOp.mk TosaKind.cast (TosaAttrs.castAttr ElemTy.f32)
           [⟨sAdd, ElemTy.f16⟩] ⟨sAdd, ElemTy.f32⟩,
         EmittedOp.mk TosaKind.mul (TosaAttrs.shiftAttr 0)
           [⟨sAdd, ElemTy.f32⟩, ⟨[2], ElemTy.f32⟩] ⟨sMul, ElemTy.f32⟩,
         EmittedOp.mk TosaKind.cast (TosaAttrs.castAttr ElemTy.i8)
           [⟨sMul, ElemTy.f32⟩] ⟨sMul, ElemTy.i8⟩] ∧
      (⟨[2], ElemTy.i8⟩ : TensorTy) = ⟨sMul, ElemTy.i8⟩ :=
  ⟨by decide,
   quantize_linear_chain.1 ⟨[2], ElemTy.f16⟩ ⟨[2], ElemTy.f32⟩ ⟨[2], ElemTy.f16⟩ _ _ (by decide)⟩

/-! ### Shape-consistency lemmas, one per rewrite rule (for claim C2) -/

theorem createOpAndInfer_elem {k : TosaKind} {attrs : TosaAttrs} {elemTy : ElemTy}
    {ins : List TensorTy} {op : EmittedOp} {t : TensorTy}
    (h : createOpAndInfer k attrs elemTy ins = some (op, t)) : t.elemTy = elemTy := by
  obtain ⟨u, _, _, ht⟩ := createOpAndInfer_eq_some h
  rw [ht]

theorem inferTosa_reduceMax_elem {ax : Int} {t u : TensorTy}
    (h : inferTosa TosaKind.reduceMax (TosaAttrs.axisAttr ax) [t] = some u) :
    u.elemTy = t.elemTy :=
  map_mk_elem h

theorem inferTosa_reduceSum_elem {ax : Int} {t u : TensorTy}
    (h : inferTosa TosaKind.reduceSum (TosaAttrs.axisAttr ax) [t] = some u) :
    u.elemTy = t.elemTy :=
  map_mk_elem h

theorem inferTosa_sub_elem {a b u : TensorTy}
    (h : inferTosa TosaKind.sub TosaAttrs.noAttrs [a, b] = some u) : u.elemTy = a.elemTy :=
  map_mk_elem h

theorem inferTosa_add_elem {a b u : TensorTy}
    (h : inferTosa TosaKind.add TosaAttrs.noAttrs [a, b] = some u) : u.elemTy = a.elemTy :=
  map_mk_elem h

theorem inferTosa_mul_elem {n : Int} {a b u : TensorTy}
    (h : inferTosa TosaKind.mul (TosaAttrs.shiftAttr n) [a, b] = some u) : u.elemTy = a.elemTy :=
  map_mk_elem h

theorem inferTosa_exp_elem {t u : TensorTy}
    (h : inferTosa TosaKind.exp TosaAttrs.noAttrs [t] = some u) : u.elemTy = t.elemTy := by
  injection h with h
  rw [← h]

theorem inferTosa_reciprocal_elem {t u : TensorTy}
    (h : inferTosa TosaKind.reciprocal TosaAttrs.noAttrs [t] = some u) : u.elemTy = t.elemTy := by
  injection h with h
  rw [← h]

theorem softmaxRewrite_wellInferred (inTy : TensorTy) (axis : Int)
    (ops : List EmittedOp) (rep : TensorTy)
    (h : softmaxRewrite inTy axis = some (ops, rep)) : allWellInferred ops := by
  unfold softmaxRewrite at h
  rcases h1 : createOpAndInfer TosaKind.reduceMax (TosaAttrs.axisAttr axis) inTy.elemTy [inTy]
    with _ | ⟨maxOp, tMax⟩
  · simp only [h1] at h
    exact Option.noConfusion h
  simp only [h1] at h
  rcases h2 : createOpAndInfer TosaKind.sub TosaAttrs.noAttrs inTy.elemTy [inTy, tMax]
    with _ | ⟨subOp, tSub⟩
  · simp only [h2] at h
    exact Option.noConfusion h
  simp only [h2] at h
  rcases h3 : createOpAndInfer TosaKind.exp TosaAttrs.noAttrs inTy.elemTy [tSub]
    with _ | ⟨expOp, tExp⟩
  · simp only [h3] at h
    exact Option.noConfusion h
  simp only [h3] at h
  rcases h4 : createOpAndInfer TosaKind.reduceSum (TosaAttrs.axisAttr axis) inTy.elemTy [tExp]
    with _ | ⟨sumOp, tSum⟩
  · simp only [h4] at h
    exact Option.noConfusion h
  simp only [h4] at h
  rcases h5 : createOpAndInfer TosaKind.reciprocal TosaAttrs.noAttrs inTy.elemTy [tSum]
    with _ | ⟨recOp, tRec⟩
  · simp only [h5] at h
    exact Option.noConfusion h
  simp only [h5] at h
  rcases h6 : createOpAndInfer TosaKind.mul (TosaAttrs.shiftAttr 0) inTy.elemTy [tExp, tRec]
    with _ | ⟨mulOp, tMul⟩
  · simp only [h6] at h
    exact Option.noConfusion h
  simp only [h6] at h
  injection h with h
  injection h with hops _
  have hexp := createOpAndInfer_elem h3
  rw [← hops]
  intro e he
  simp only [List.mem_cons, List.not_mem_nil, or_false] at he
  rcases he with rfl | rfl | rfl | rfl | rfl | rfl
  · exact createOpAndInfer_wellInferred h1 (fun u hu => inferTosa_reduceMax_elem hu)
  · exact createOpAndInfer_wellInferred h2 (fun u hu => inferTosa_sub_elem hu)
  · exact createOpAndInfer_wellInferred h3 (fun u hu =>
      (inferTosa_exp_elem hu).trans (createOpAndInfer_elem h2))
  · exact createOpAndInfer_wellInferred h4 (fun u hu =>
      (inferTosa_reduceSum_elem hu).trans hexp)
  · exact createOpAndInfer_wellInferred h5 (fun u hu =>
      (inferTosa_reciprocal_elem hu).trans (createOpAndInfer_elem h4))
  · exact createOpAndInfer_wellInferred h6 (fun u hu =>
      (inferTosa_mul_elem hu).trans hexp)

theorem quantizeLinearRewrite_wellInferred (inTy scaleTy : TensorTy) (biasTy : Option TensorTy)
    (ops : List EmittedOp) (rep : TensorTy)
    (h : quantizeLinearRewrite inTy scaleTy biasTy = some (ops, rep)) : allWellInferred ops := by
  unfold quantizeLinearRewrite at h
  rcases biasTy with _ | b
  · rcases hmul : createOpAndInfer TosaKind.mul (TosaAttrs.shiftAttr 0) ElemTy.f32
        [(createCastOp ElemTy.f32 inTy).2, scaleTy] with _ | ⟨mulOp, scaled⟩
    · simp only [hmul] at h
      exact Option.noConfusion h
    · simp only [hmul] at h
      injection h with h
      injection h with hops _
      rw [← hops]
      intro e he
      simp only [List.mem_cons, List.not_mem_nil, or_false] at he
      rcases he with rfl | rfl | rfl
      · exact createCastOp_wellInferred ElemTy.f32 inTy
      · exact createOpAndInfer_wellInferred hmul (fun u hu => inferTosa_mul_elem hu)
      · exact createCastOp_wellInferred ElemTy.i8 scaled
  · rcases hadd : createOpAndInfer TosaKind.add TosaAttrs.noAttrs inTy.elemTy [inTy, b]
      with _ | ⟨addOp, shifted⟩
    · simp only [hadd] at h
      exact Option.noConfusion h
    · simp only [hadd] at h
      rcases hmul : createOpAndInfer TosaKind.mul (TosaAttrs.shiftAttr 0) ElemTy.f32
          [(createCastOp ElemTy.f32 shifted).2, scaleTy] with _ | ⟨mulOp, scaled⟩
      · simp only [hmul] at h
        exact Option.noConfusion h
      · simp only [hmul] at h
        injection h with h
        injection h with hops _
        rw [← hops]
        intro e he
        simp only [List.mem_cons, List.not_mem_nil, or_false] at he
        rcases he with rfl | rfl | rfl | rfl
        · exact createOpAndInfer_wellInferred hadd (fun u hu => inferTosa_add_elem hu)
        · exact createCastOp_wellInferred ElemTy.f32 shifted
        · exact createOpAndInfer_wellInferred hmul (fun u hu => inferTosa_mul_elem hu)
        · exact createCastOp_wellInferred ElemTy.i8 scaled

theorem reduceMeanRewrite_wellInferred (inTy : TensorTy) (axes : List Int)
    (ops : List EmittedOp) (rep : TensorTy)
    (h : reduceMeanRewrite inTy axes = Outcome.success (ops, rep)) : allWellInferred ops := by
  unfold reduceMeanRewrite at h
  by_cases hax : axes.length ≠ 1
  · rw [if_pos hax] at h
    exact Outcome.noConfusion h
  rw [if_neg hax] at h
  by_cases hbound : 0 ≤ axes.getD 0 0 ∧ (axes.getD 0 0).toNat < inTy.shape.length
  · rw [if_pos hbound] at h
    rcases h1 : createOpAndInfer TosaKind.reciprocal TosaAttrs.noAttrs inTy.elemTy
        [⟨[1], inTy.elemTy⟩] with _ | ⟨recOp, tRec⟩
    · simp only [h1] at h
      exact Outcome.noConfusion h
    simp only [h1] at h
    rcases h2 : createOpAndInfer TosaKind.mul (TosaAttrs.shiftAttr 0) inTy.elemTy [inTy, tRec]
      with _ | ⟨mulOp, tMul⟩
    · simp only [h2] at h
      exact Outcome.noConfusion h
    simp only [h2] at h
    rcases h3 : createOpAndInfer TosaKind.reduceSum (TosaAttrs.axisAttr (axes.getD 0 0))
        inTy.elemTy [tMul] with _ | ⟨sumOp, tSum⟩
    · simp only [h3] at h
      exact Outcome.noConfusion h
    simp only [h3] at h
    injection h with h
    injection h with hops _
    rw [← hops]
    intro e he
    simp only [List.mem_cons, List.not_mem_nil, or_false] at he
    rcases he with rfl | rfl | rfl | rfl
    · rfl
    · exact createOpAndInfer_wellInferred h1 (fun u hu =>
        inferTosa_reciprocal_elem (t := ⟨[1], inTy.elemTy⟩) hu)
    · exact createOpAndInfer_wellInferred h2 (fun u hu => inferTosa_mul_elem hu)
    · exact createOpAndInfer_wellInferred h3 (fun u hu =>
        (inferTosa_reduceSum_elem hu).trans (createOpAndInfer_elem h2))
  · rw [if_neg hbound] at h
    exact Outcome.noConfusion h

theorem reshapeRewrite_wellInferred (inTy outTy : TensorTy) (dims : List Int)
    (hv : outTy = TensorTy.mk dims inTy.elemTy) :
    allWellInferred (reshapeRewrite inTy outTy dims).1 := by
  intro e he
  simp only [reshapeRewrite, List.mem_singleton] at he
  subst he
  subst hv
  rfl

theorem broadcastRewrite_wellInferred (inTy outTy : TensorTy) (axis : Int)
    (consumers : List Consumer) (out : BroadcastOutput)
    (helem : outTy.elemTy = inTy.elemTy)
    (h : broadcastRewrite inTy outTy axis consumers = some out) :
    allWellInferred out.emitted := by
  unfold broadcastRewrite at h
  by_cases hr : outTy.shape.length ≠ inTy.shape.length
  · rw [if_pos hr] at h
    rcases ha : broadcastAlignShape inTy.shape outTy.shape.length axis with _ | ns
    · simp only [ha] at h
      exact Option.noConfusion h
    · simp only [ha] at h
      injection h with h
      rw [← h]
      intro e he
      simp only [List.mem_singleton] at he
      subst he
      show inferTosa TosaKind.reshape (TosaAttrs.shapeAttr ns) [inTy] =
        some ⟨ns, outTy.elemTy⟩
      rw [helem]
      rfl
  · rw [if_neg hr] at h
    injection h with h
    rw [← h]
    intro e he
    simp at he

theorem isBroadcastable_resTy (c : Consumer) : (isBroadcastable c).2.resTy = c.resTy := by
  unfold isBroadcastable
  by_cases h1 : c.opnds.length ≠ 2
  · rw [if_pos h1]
  · rw [if_neg h1]
    by_cases h2 : c.opnds.getD 1 (OpndV.other 0) ≠ OpndV.bres
    · rw [if_pos h2]
    · rw [if_neg h2]

theorem multiRewireAll_wellInferred (inTy : TensorTy) :
    ∀ (cs : List Consumer), (∀ c ∈ cs, c.resTy.elemTy = inTy.elemTy) →
      ∀ (ok : Bool) (cs2 : List Consumer) (ops : List EmittedOp),
        multiRewireAll inTy cs = some (ok, cs2, ops) → allWellInferred ops
  | [], _, ok, cs2, ops, h => by
    unfold multiRewireAll at h
    injection h with h
    injection h with _ h
    injection h with _ h3
    rw [← h3]
    intro e he
    simp at he
  | c :: rest, helems, ok, cs2, ops, h => by
    have hc : c.resTy.elemTy = inTy.elemTy := helems c (by simp)
    have hrest : ∀ x ∈ rest, x.resTy.elemTy = inTy.elemTy :=
      fun x hx => helems x (List.mem_cons_of_mem _ hx)
    unfold multiRewireAll at h
    rcases hbc : isBroadcastable c with ⟨ok1, c1⟩
    have hc1 : c1.resTy = c.resTy := by
      have := isBroadcastable_resTy c
      rw [hbc] at this
      exact this
    rcases ok1
    · simp only [hbc] at h
      injection h with h
      injection h with _ h
      injection h with _ h3
      rw [← h3]
      intro e he
      simp at he
    · simp only [hbc] at h
      by_cases hrank : c1.resTy.shape.length ≠ inTy.shape.length
      · rw [if_pos hrank] at h
        rcases hsh : multiBroadcastShape inTy.shape c1.resTy.shape.length with _ | ns
        · simp only [hsh] at h
          exact Option.noConfusion h
        simp only [hsh] at h
        rcases hrec : multiRewireAll inTy rest with _ | ⟨ok2, rest2, ops2⟩
        · simp only [hrec] at h
          exact Option.noConfusion h
        simp only [hrec] at h
        injection h with h
        injection h with _ h
        injection h with _ h3
        rw [← h3]
        intro e he
        rcases List.mem_cons.mp he with rfl | he2
        · show inferTosa TosaKind.reshape (TosaAttrs.shapeAttr ns) [inTy] =
            some ⟨ns, c1.resTy.elemTy⟩
          rw [hc1, hc]
          rfl
        · exact multiRewireAll_wellInferred inTy rest hrest ok2 rest2 ops2 hrec e he2
      · rw [if_neg hrank] at h
        rcases hrec : multiRewireAll inTy rest with _ | ⟨ok2, rest2, ops2⟩
        · simp only [hrec] at h
          exact Option.noConfusion h
        simp only [hrec] at h
        injection h with h
        injection h with _ h
        injection h with _ h3
        rw [← h3]
        exact multiRewireAll_wellInferred inTy rest hrest ok2 rest2 ops2 hrec

theorem multiBroadcastRewrite_wellInferred (inTy : TensorTy) (consumers : List Consumer)
    (out : BroadcastOutput)
    (helems : ∀ c ∈ consumers, c.resTy.elemTy = inTy.elemTy)
    (h : multiBroadcastRewrite inTy consumers = some out) : allWellInferred out.emitted := by
  unfold multiBroadcastRewrite at h
  rcases hrec : multiRewireAll inTy consumers with _ | ⟨ok, cs, ops⟩
  · simp only [hrec] at h
    exact Option.noConfusion h
  · simp only [hrec] at h
    injection h with h
    rw [← h]
    exact multiRewireAll_wellInferred inTy consumers helems ok cs ops hrec

theorem migraphxConvOutShape_inv {inS filtS pad stride dilation outS : Shape}
    (h : migraphxConvOutShape inS filtS pad stride dilation = some outS) :
    ∃ n c ih iw o c2 kh kw pt pb pl pr sh sw dh dw,
      inS = [n, c, ih, iw] ∧ filtS = [o, c2, kh, kw] ∧ pad = [pt, pb, pl, pr] ∧
      stride = [sh, sw] ∧ dilation = [dh, dw] ∧
      outS = [n, o, convOutExtent ih kh pt pb sh dh, convOutExtent iw kw pl pr sw dw] := by
  unfold migraphxConvOutShape at h
  split at h
  · injection h with h
    exact ⟨_, _, _, _, _, _, _, _, _, _, _, _, _, _, _, _,
      rfl, rfl, rfl, rfl, rfl, h.symm⟩
  · exact Option.noConfusion h

theorem convRewrite_wellInferred (inTy filterTy outTy : TensorTy)
    (pad stride dilation : List Int)
    (hv : convValid inTy filterTy outTy pad stride dilation)
    (ops : List EmittedOp) (rep : TensorTy)
    (h : convRewrite inTy filterTy outTy pad stride dilation = some (ops, rep)) :
    allWellInferred ops := by
  obtain ⟨inS, inE⟩ := inTy
  obtain ⟨fS, fE⟩ := filterTy
  obtain ⟨oS, oE⟩ := outTy
  obtain ⟨helem, hshape, _, _, _⟩ := hv
  obtain ⟨n, c, ih, iw, o, c2, kh, kw, pt, pb, pl, pr, sh, sw, dh, dw,
    hin, hfilt, hpad, hstr, hdil, hout⟩ := migraphxConvOutShape_inv hshape
  simp only at hin hfilt hout helem
  subst hin hfilt hpad hstr hdil hout helem
  simp only [convRewrite, getRank4TransposeShape] at h
  injection h with h
  injection h with hops _
  rw [← hops]
  intro e he
  simp only [List.mem_cons, List.not_mem_nil, or_false] at he
  rcases he with rfl | rfl | rfl | rfl | rfl | rfl | rfl | rfl <;> rfl

theorem length_three_inv {l : Shape} (h : l.length = 3) : ∃ x y z, l = [x, y, z] := by
  rcases l with _ | ⟨x, l⟩
  · simp at h
  rcases l with _ | ⟨y, l⟩
  · simp at h
  rcases l with _ | ⟨z, l⟩
  · simp at h
  rcases l with _ | ⟨w, l⟩
  · exact ⟨x, y, z, rfl⟩
  · simp at h

theorem dotRewrite_wellInferred (aTy bTy outTy : TensorTy)
    (hv : dotValid aTy bTy outTy) (ops : List EmittedOp) (rep : TensorTy)
    (h : dotRewrite aTy bTy outTy = Outcome.success (ops, rep)) :
    allWellInferred ops := by
  obtain ⟨aS, aE⟩ := aTy
  obtain ⟨bS, bE⟩ := bTy
  obtain ⟨oS, oE⟩ := outTy
  obtain ⟨hbe, hoe, hlA, hlB, h2, htake, hrow, hcol⟩ := hv
  simp only at hbe hoe hlA hlB h2 htake hrow hcol h
  subst hbe hoe
  simp only [dotRewrite] at h
  by_cases hcond : oS.length ≠ 3 ∨ aS.length ≠ bS.length ∨ (oS.length = 3 ∧ aS ≠ bS)
  · rw [if_pos hcond] at h
    have hguard : ¬(oS.length < 2 ∨ aS.length < 2 ∨ bS.length < 2) := by omega
    rw [if_neg hguard] at h
    have hrcA := dotOperandRowCol_eq_of_le aS h2 (by omega)
    have hrcB := dotOperandRowCol_eq_of_le bS h2 (by omega)
    have hsome : (dotOperandRowCol aS oS.length).isSome ∧
        (dotOperandRowCol bS oS.length).isSome := by
      rw [hrcA, hrcB]
      exact ⟨rfl, rfl⟩
    rw [if_pos hsome] at h
    have hc1 : oS.getD (oS.length - 2) 0 = aS.getD (oS.length - 2) 0 := by
      rw [getD_eq_get?_getD, getD_eq_get?_getD, hrow]
    have hc2 : oS.getD (oS.length - 1) 0 = bS.getD (oS.length - 1) 0 := by
      rw [getD_eq_get?_getD, getD_eq_get?_getD, hcol]
    have hbatch : listProd (oS.take (oS.length - 2)) = listProd (aS.take (aS.length - 2)) := by
      rw [hlA, htake]
    by_cases hb : listProd (aS.take (aS.length - 2)) ≠ listProd (bS.take (bS.length - 2))
    · rw [if_pos hb] at h
      by_cases hb1 : listProd (bS.take (bS.length - 2)) = 1
      · rw [if_pos hb1] at h
        unfold dotEmitFlattened at h
        injection h with h
        injection h with hops _
        rw [← hops]
        intro e he
        simp only [List.mem_cons, List.not_mem_nil, or_false] at he
        rcases he with rfl | rfl | rfl | rfl
        · rfl
        · rfl
        · show inferTosa TosaKind.matmul TosaAttrs.noAttrs _ = _
          simp only [inferTosa, inferMatMul]
          rw [if_pos hb1.symm, hc1, hc2, hbatch]
        · show inferTosa TosaKind.reshape (TosaAttrs.shapeAttr oS) _ = _
          rfl
      · rw [if_neg hb1] at h
        exact Outcome.noConfusion h
    · rw [if_neg hb] at h
      have hbeq := not_not.mp hb
      unfold dotEmitFlattened at h
      injection h with h
      injection h with hops _
      rw [← hops]
      intro e he
      simp only [List.mem_cons, List.not_mem_nil, or_false] at he
      rcases he with rfl | rfl | rfl | rfl
      · rfl
      · rfl
      · show inferTosa TosaKind.matmul TosaAttrs.noAttrs _ = _
        simp only [inferTosa, inferMatMul]
        rw [if_pos hbeq, hc1, hc2, hbatch]
      · show inferTosa TosaKind.reshape (TosaAttrs.shapeAttr oS) _ = _
        rfl
  · rw [if_neg hcond] at h
    push_neg at hcond
    obtain ⟨h3, _, himp⟩ := hcond
    have hab : aS = bS := himp h3
    subst hab
    injection h with h
    injection h with hops _
    rw [← hops]
    intro e he
    simp only [List.mem_singleton] at he
    subst he
    obtain ⟨x, y, z, hxyz⟩ := length_three_inv (l := aS) (by omega)
    obtain ⟨u, v, w, huvw⟩ := length_three_inv (l := oS) h3
    subst hxyz huvw
    simp only [List.length_cons, List.length_nil] at htake hrow hcol
    norm_num at htake hrow hcol
    show inferTosa TosaKind.matmul TosaAttrs.noAttrs _ = _
    simp [inferTosa, inferMatMul, htake, hrow, hcol]

/-! ### Claim C2: the shape-consistency invariant -/

/-- C2: for every operation created by any of the rewrite rules, on every
valid input (the matched operation's declared types satisfy the
spec-modelled source-level validity for the rules whose stamped types depend
on them), the declared result type equals what the inference oracle
computes from the operation's kind, attributes and operand types at
creation.  This covers hand-stamped results (the transposes, the target
convolution, the matmul and every reshape, the casts, the constants) as
well as everything built through the `createOpAndInfer` helper. -/
theorem shape_consistency_of_rules :
    (∀ (inTy filterTy outTy : TensorTy) (pad stride dilation : List Int)
       (ops : List EmittedOp) (rep : TensorTy),
       convValid inTy filterTy outTy pad stride dilation →
       convRewrite inTy filterTy outTy pad stride dilation = some (ops, rep) →
       allWellInferred ops) ∧
    (∀ (aTy bTy outTy : TensorTy) (ops : List EmittedOp) (rep : TensorTy),
       dotValid aTy bTy outTy →
       dotRewrite aTy bTy outTy = Outcome.success (ops, rep) → allWellInferred ops) ∧
    (∀ (inTy outTy : TensorTy) (axis : Int) (consumers : List Consumer)
       (out : BroadcastOutput),
       outTy.elemTy = inTy.elemTy →
       broadcastRewrite inTy outTy axis consumers = some out →
       allWellInferred out.emitted) ∧
    (∀ (inTy : TensorTy) (consumers : List Consumer) (out : BroadcastOutput),
       (∀ c ∈ consumers, c.resTy.elemTy = inTy.elemTy) →
       multiBroadcastRewrite inTy consumers = some out → allWellInferred out.emitted) ∧
    (∀ (inTy : TensorTy) (axis : Int) (ops : List EmittedOp) (rep : TensorTy),
       softmaxRewrite inTy axis = some (ops, rep) → allWellInferred ops) ∧
    (∀ (inTy outTy : TensorTy) (dims : List Int),
       outTy = TensorTy.mk dims inTy.elemTy →
       allWellInferred (reshapeRewrite inTy outTy dims).1) ∧
    (∀ (inTy : TensorTy) (axes : List Int) (ops : List EmittedOp) (rep : TensorTy),
       reduceMeanRewrite inTy axes = Outcome.success (ops, rep) → allWellInferred ops) ∧
    (∀ (inTy scaleTy : TensorTy) (biasTy : Option TensorTy) (ops : List EmittedOp)
       (rep : TensorTy),
       quantizeLinearRewrite inTy scaleTy biasTy = some (ops, rep) → allWellInferred ops) :=
  ⟨fun inTy fTy oTy pad str dil ops rep hv h =>
     convRewrite_wellInferred inTy fTy oTy pad str dil hv ops rep h,
   fun aTy bTy oTy ops rep hv h => dotRewrite_wellInferred aTy bTy oTy hv ops rep h,
   fun inTy oTy axis consumers out helem h =>
     broadcastRewrite_wellInferred inTy oTy axis consumers out helem h,
   fun inTy consumers out helems h =>
     multiBroadcastRewrite_wellInferred inTy consumers out helems h,
   fun inTy axis ops rep h => softmaxRewrite_wellInferred inTy axis ops rep h,
   fun inTy oTy dims hv => reshapeRewrite_wellInferred inTy oTy dims hv,
   fun inTy axes ops rep h => reduceMeanRewrite_wellInferred inTy axes ops rep h,
   fun inTy scaleTy biasTy ops rep h =>
     quantizeLinearRewrite_wellInferred inTy scaleTy biasTy ops rep h⟩

/-- Witness for C2: the reduce-mean rule applied at a concrete input, with
every created operation checked against the oracle. -/
theorem shape_consistency_witness :
    reduceMeanRewrite ⟨[4, 6], ElemTy.f32⟩ [1] =
      Outcome.success
        ([EmittedOp.mk TosaKind.const (TosaAttrs.constAttr ⟨[1], ElemTy.f32⟩ [6]) []
            ⟨[1], ElemTy.f32⟩,
          EmittedOp.mk TosaKind.reciprocal TosaAttrs.noAttrs [⟨[1], ElemTy.f32⟩]
            ⟨[1], ElemTy.f32⟩,
          EmittedOp.mk TosaKind.mul (TosaAttrs.shiftAttr 0)
            [⟨[4, 6], ElemTy.f32⟩, ⟨[1], ElemTy.f32⟩] ⟨[4, 6], ElemTy.f32⟩,
          EmittedOp.mk TosaKind.reduceSum (TosaAttrs.axisAttr 1) [⟨[4, 6], ElemTy.f32⟩]
            ⟨[4, 1], ElemTy.f32⟩],
         ⟨[4, 1], ElemTy.f32⟩) ∧
    allWellInferred
      [EmittedOp.mk TosaKind.const (TosaAttrs.constAttr ⟨[1], ElemTy.f32⟩ [6]) []
         ⟨[1], ElemTy.f32⟩,
       EmittedOp.mk TosaKind.reciprocal TosaAttrs.noAttrs [⟨[1], ElemTy.f32⟩]
         ⟨[1], ElemTy.f32⟩,
       EmittedOp.mk TosaKind.mul (TosaAttrs.shiftAttr 0)
         [⟨[4, 6], ElemTy.f32⟩, ⟨[1], ElemTy.f32⟩] ⟨[4, 6], ElemTy.f32⟩,
       EmittedOp.mk TosaKind.reduceSum (TosaAttrs.axisAttr 1) [⟨[4, 6], ElemTy.f32⟩]
         ⟨[4, 1], ElemTy.f32⟩] :=
  ⟨by decide,
   shape_consistency_of_rules.2.2.2.2.2.2.1 ⟨[4, 6], ElemTy.f32⟩ [1]
     [EmittedOp.mk TosaKind.const (TosaAttrs.constAttr ⟨[1], ElemTy.f32⟩ [6]) []
        ⟨[1], ElemTy.f32⟩,
      EmittedOp.mk TosaKind.reciprocal TosaAttrs.noAttrs [⟨[1], ElemTy.f32⟩]
        ⟨[1], ElemTy.f32⟩,
      EmittedOp.mk TosaKind.mul (TosaAttrs.shiftAttr 0)
        [⟨[4, 6], ElemTy.f32⟩, ⟨[1], ElemTy.f32⟩] ⟨[4, 6], ElemTy.f32⟩,
      EmittedOp.mk TosaKind.reduceSum (TosaAttrs.axisAttr 1) [⟨[4, 6], ElemTy.f32⟩]
        ⟨[4, 1], ElemTy.f32⟩]
     ⟨[4, 1], ElemTy.f32⟩ (by decide)⟩
